import Mathlib

/-!
Accounting engine of the market-model framework (`ql/MarketModels/accountingengine.cpp`).

A shallow embedding of `AccountingEngine` and its nested `Discounter`.

* `Real` and `Time` (C++ `double`) are idealised as exact rationals: they are `ℚ` below.
  `Size` is `ℕ`.  Every `Size` that is used as an index is checked against its container
  first, so no `Size` arithmetic of the engine can wrap.
* `std::vector` and `Array` are lists.  An unchecked `operator[]` that loads or stores outside
  its container is undefined behaviour in C++; the embedding marks it as `Fault.outOfRange`,
  and the theorems on values assume such indices in range.  The lookup
  `discounters_[timeIndex]` binds a reference to an object without members and loads nothing.
* The evolver, the product and the curve state are collaborators whose classes are not defined in
  `accountingengine.cpp`.  They are interfaces here: records of functions over an object state.
  `nextTimeStep` receives the two scratch buffers by reference, so it is a function from the old
  buffers to the new ones.
* The `do ... while (!done)` loop takes a fuel argument; `Fault.fuelExhausted` is reported when
  the fuel runs out before the product signals completion.
-/

namespace QuantLib

/-- Ways in which a run of the embedding fails to return. -/
inductive Fault where
  | outOfRange
  | fuelExhausted
deriving DecidableEq, Repr

/-- Unchecked `operator[]` whose element is loaded or stored: outside the container the
behaviour is undefined; the embedding marks it as a fault. -/
def readAt {α : Type} (xs : List α) (i : ℕ) : Except Fault α :=
  match xs[i]? with
  | some x => Except.ok x
  | none => Except.error Fault.outOfRange

/-- Curve state: the only query the engine makes is `discountRatio(i, j)`. -/
structure CurveState where
  discountRatio : ℕ → ℕ → ℚ

instance : Inhabited CurveState := ⟨⟨fun _ _ => 1⟩⟩

/-- `MarketModelProduct::CashFlow`. -/
structure CashFlow where
  timeIndex : ℕ
  amount : ℚ
deriving DecidableEq, Repr

instance : Inhabited CashFlow := ⟨⟨0, 0⟩⟩

/-- `EvolutionDescription`, as far as the engine reads it. -/
structure EvolutionDescription where
  rateTimes : List ℚ
  numeraires : List ℕ

/-- `MarketModelEvolver` over an object state `σ`. -/
structure MarketModelEvolver (σ : Type) where
  startNewPath : σ → ℚ × σ
  advanceStep : σ → ℚ × σ
  currentState : σ → CurveState
  currentStep : σ → ℕ

/-- What one call of `MarketModelProduct::nextTimeStep` leaves behind: the returned flag, the
product object and the two buffers it received by reference. -/
structure TimeStepResult (π : Type) where
  done : Bool
  product : π
  numberCashFlowsThisStep : List ℕ
  cashFlowsGenerated : List (List CashFlow)

/-- `MarketModelProduct` over an object state `π`. -/
structure MarketModelProduct (π : Type) where
  numberOfProducts : ℕ
  maxNumberOfCashFlowsPerProductPerStep : ℕ
  possibleCashFlowTimes : List ℚ
  reset : π → π
  nextTimeStep : π → CurveState → List ℕ → List (List CashFlow) → TimeStepResult π

/-- `AccountingEngine::Discounter`.  The constructor body is empty, so a discounter stores
nothing of its payment time or of the rate times. -/
structure Discounter where
deriving DecidableEq, Repr

/-- `Discounter::Discounter(paymentTime, rateTimes)`: "to be implemented". -/
def newDiscounter (_paymentTime : ℚ) (_rateTimes : List ℚ) : Discounter := {}

/-- `Discounter::numeraireBonds(curveState, numeraire)`: "to be implemented", returns `1.0`. -/
def Discounter.numeraireBonds (_d : Discounter) (_curveState : CurveState)
    (_numeraire : ℕ) : ℚ := 1

/-- `AccountingEngine`: the members of the class, and the states of the two shared objects
behind `evolver_` and `product_`. -/
structure AccountingEngine (σ π : Type) where
  evolver_ : MarketModelEvolver σ
  evolverObject : σ
  product_ : MarketModelProduct π
  productObject : π
  evolution_ : EvolutionDescription
  initialNumeraireValue_ : ℚ
  numberProducts_ : ℕ
  numerairesHeld_ : List ℚ
  curveState_ : CurveState
  numberCashFlowsThisStep_ : List ℕ
  cashFlowsGenerated_ : List (List CashFlow)
  discounters_ : List Discounter

/-- `AccountingEngine::AccountingEngine`.  The constructor of `CurveState` is not defined in
`accountingengine.cpp` and is the parameter `newCurveState`. -/
def newAccountingEngine {σ π : Type} (newCurveState : List ℚ → CurveState)
    (evolver : MarketModelEvolver σ) (evolverObject : σ)
    (product : MarketModelProduct π) (productObject : π)
    (evolution : EvolutionDescription) (initialNumeraireValue : ℚ) :
    AccountingEngine σ π :=
  { evolver_ := evolver
    evolverObject := evolverObject
    product_ := product
    productObject := productObject
    evolution_ := evolution
    initialNumeraireValue_ := initialNumeraireValue
    numberProducts_ := product.numberOfProducts
    numerairesHeld_ := List.replicate product.numberOfProducts 0
    curveState_ := newCurveState evolution.rateTimes
    numberCashFlowsThisStep_ := List.replicate product.numberOfProducts 0
    cashFlowsGenerated_ :=
      List.replicate product.numberOfProducts
        (List.replicate product.maxNumberOfCashFlowsPerProductPerStep default)
    discounters_ :=
      product.possibleCashFlowTimes.map (fun t => newDiscounter t evolution.rateTimes) }

/-- The objects that the collaborators can change during a path: the evolver and the product
behind the shared pointers, and the two scratch buffers handed to `nextTimeStep`. -/
structure Collaborators (σ π : Type) where
  evolverObject : σ
  productObject : π
  numberCashFlowsThisStep_ : List ℕ
  cashFlowsGenerated_ : List (List CashFlow)

/-- The variables of the `do ... while` loop of `singlePathValues` that an iteration can change:
what the collaborators own or write, the locals `weight` and `principalInNumerairePortfolio`,
and the member `numerairesHeld_`. -/
structure LoopState (σ π : Type) where
  shared : Collaborators σ π
  weight : ℚ
  principalInNumerairePortfolio : ℚ
  numerairesHeld_ : List ℚ

/-- The inner loop `for (j = 0; j < numberCashFlowsThisStep_[i]; ++j)` of product `i`, run for
`j = 0 .. n-1`.  The lookup `discounters_[cashflows[j].timeIndex]` only binds a reference:
`Discounter` has no members and `numeraireBonds` reads nothing through it, so no element of
`discounters_` is loaded and the lookup cannot fault, whatever the time index. -/
def addCashFlows (discounters : List Discounter) (curveState : CurveState) (numeraire : ℕ)
    (principal : ℚ) (cashflows : List CashFlow) (i : ℕ) :
    Nat → List ℚ → Except Fault (List ℚ)
  | 0, held => Except.ok held
  | j + 1, held =>
    match addCashFlows discounters curveState numeraire principal cashflows i j held with
    | Except.error f => Except.error f
    | Except.ok held1 =>
      match readAt cashflows j with
      | Except.error f => Except.error f
      | Except.ok cf =>
        match readAt held1 i with
        | Except.error f => Except.error f
        | Except.ok h =>
          Except.ok
            (held1.set i (h + cf.amount
              * (discounters.getD cf.timeIndex {}).numeraireBonds curveState numeraire
              / principal))

/-- The outer loop `for (i = 0; i < numberProducts_; ++i)`, run for `i = 0 .. n-1`. -/
def addProducts (discounters : List Discounter) (curveState : CurveState) (numeraire : ℕ)
    (principal : ℚ) (counts : List ℕ) (flows : List (List CashFlow)) :
    Nat → List ℚ → Except Fault (List ℚ)
  | 0, held => Except.ok held
  | i + 1, held =>
    match addProducts discounters curveState numeraire principal counts flows i held with
    | Except.error f => Except.error f
    | Except.ok held1 =>
      match readAt flows i with
      | Except.error f => Except.error f
      | Except.ok cashflows =>
        match readAt counts i with
        | Except.error f => Except.error f
        | Except.ok n =>
          addCashFlows discounters curveState numeraire principal cashflows i n held1

/-- The calls `evolver_->advanceStep()` and `product_->nextTimeStep(...)` that open an
iteration: the flag returned by the product and what the two calls leave behind. -/
def AccountingEngine.callCollaborators {σ π : Type} (e : AccountingEngine σ π)
    (c : Collaborators σ π) : Bool × Collaborators σ π :=
  let evolverObject := (e.evolver_.advanceStep c.evolverObject).2
  let r := e.product_.nextTimeStep c.productObject (e.evolver_.currentState evolverObject)
    c.numberCashFlowsThisStep_ c.cashFlowsGenerated_
  (r.done,
    { evolverObject := evolverObject
      productObject := r.product
      numberCashFlowsThisStep_ := r.numberCashFlowsThisStep
      cashFlowsGenerated_ := r.cashFlowsGenerated })

/-- One iteration of the `do ... while` loop body; the flag is `done`. -/
def AccountingEngine.iteration {σ π : Type} (e : AccountingEngine σ π) (s : LoopState σ π) :
    Except Fault (Bool × LoopState σ π) :=
  let weight := s.weight * (e.evolver_.advanceStep s.shared.evolverObject).1
  let called := e.callCollaborators s.shared
  let done := called.1
  let c := called.2
  match readAt e.evolution_.numeraires (e.evolver_.currentStep c.evolverObject) with
  | Except.error f => Except.error f
  | Except.ok numeraire =>
    match addProducts e.discounters_ (e.evolver_.currentState c.evolverObject) numeraire
        s.principalInNumerairePortfolio c.numberCashFlowsThisStep_ c.cashFlowsGenerated_
        e.numberProducts_ s.numerairesHeld_ with
    | Except.error f => Except.error f
    | Except.ok held =>
      if done then
        Except.ok (true,
          { shared := c
            weight := weight
            principalInNumerairePortfolio := s.principalInNumerairePortfolio
            numerairesHeld_ := held })
      else
        match readAt e.evolution_.numeraires (e.evolver_.currentStep c.evolverObject + 1) with
        | Except.error f => Except.error f
        | Except.ok nextNumeraire =>
          Except.ok (false,
            { shared := c
              weight := weight
              principalInNumerairePortfolio :=
                s.principalInNumerairePortfolio
                  * e.curveState_.discountRatio nextNumeraire numeraire
              numerairesHeld_ := held })

/-- The `do ... while (!done)` loop. -/
def AccountingEngine.pathLoop {σ π : Type} (e : AccountingEngine σ π) :
    Nat → LoopState σ π → Except Fault (LoopState σ π)
  | 0, _ => Except.error Fault.fuelExhausted
  | fuel + 1, s =>
    match e.iteration s with
    | Except.error f => Except.error f
    | Except.ok (done, s1) => if done then Except.ok s1 else e.pathLoop fuel s1

/-- The final loop `for (i = 0; i < numerairesHeld_.size(); ++i) values[i] = ...`, run for
`i = 0 .. n-1`. -/
def writeValues (held : List ℚ) (initialNumeraireValue : ℚ) :
    Nat → List ℚ → Except Fault (List ℚ)
  | 0, values => Except.ok values
  | i + 1, values =>
    match writeValues held initialNumeraireValue i values with
    | Except.error f => Except.error f
    | Except.ok values1 =>
      match readAt held i with
      | Except.error f => Except.error f
      | Except.ok h =>
        if i < values1.length then Except.ok (values1.set i (h * initialNumeraireValue))
        else Except.error Fault.outOfRange

/-- What the collaborators own on entry to the `do ... while` loop: `startNewPath` and `reset`
have been called, the scratch buffers are as the last call left them. -/
def AccountingEngine.entryShared {σ π : Type} (e : AccountingEngine σ π) :
    Collaborators σ π :=
  { evolverObject := (e.evolver_.startNewPath e.evolverObject).2
    productObject := e.product_.reset e.productObject
    numberCashFlowsThisStep_ := e.numberCashFlowsThisStep_
    cashFlowsGenerated_ := e.cashFlowsGenerated_ }

/-- The loop state on entry to the `do ... while` loop: `numerairesHeld_` filled with zeros,
the weight returned by `startNewPath`, the principal set to one. -/
def AccountingEngine.entryState {σ π : Type} (e : AccountingEngine σ π) : LoopState σ π :=
  { shared := e.entryShared
    weight := (e.evolver_.startNewPath e.evolverObject).1
    principalInNumerairePortfolio := 1
    numerairesHeld_ := List.replicate e.numerairesHeld_.length 0 }

/-- `AccountingEngine::singlePathValues(values)`: the engine after the call and the array
`values` after the call. -/
def AccountingEngine.singlePathValues {σ π : Type} (fuel : Nat) (e : AccountingEngine σ π)
    (values : List ℚ) : Except Fault (AccountingEngine σ π × List ℚ) :=
  match e.pathLoop fuel e.entryState with
  | Except.error f => Except.error f
  | Except.ok s =>
    match writeValues s.numerairesHeld_ e.initialNumeraireValue_ s.numerairesHeld_.length
        values with
    | Except.error f => Except.error f
    | Except.ok values1 =>
      Except.ok
        ({ e with
            evolverObject := s.shared.evolverObject
            productObject := s.shared.productObject
            numberCashFlowsThisStep_ := s.shared.numberCashFlowsThisStep_
            cashFlowsGenerated_ := s.shared.cashFlowsGenerated_
            numerairesHeld_ := s.numerairesHeld_ }, values1)

/-- The array `values` after a run, when the run returns. -/
def valuesOf {α : Type} (r : Except Fault (α × List ℚ)) : Option (List ℚ) :=
  match r with
  | Except.ok p => some p.2
  | Except.error _ => none

/-! ## The path as the engine sees it

Iteration `k` below is counted from zero: it is step `k + 1` of the path. -/

/-- What the collaborators own after `k` iterations of the loop that starts from `c`. -/
def AccountingEngine.collaboratorsAt {σ π : Type} (e : AccountingEngine σ π) :
    Collaborators σ π → Nat → Collaborators σ π
  | c, 0 => c
  | c, k + 1 => e.collaboratorsAt (e.callCollaborators c).2 k

/-- The flag `done` that `nextTimeStep` returns in iteration `k`. -/
def AccountingEngine.doneAt {σ π : Type} (e : AccountingEngine σ π) (c : Collaborators σ π)
    (k : Nat) : Bool :=
  (e.callCollaborators (e.collaboratorsAt c k)).1

/-- The value of `evolver_->currentState()` in iteration `k`. -/
def AccountingEngine.stateAt {σ π : Type} (e : AccountingEngine σ π) (c : Collaborators σ π)
    (k : Nat) : CurveState :=
  e.evolver_.currentState (e.collaboratorsAt c (k + 1)).evolverObject

/-- The value of `evolver_->currentStep()` in iteration `k`. -/
def AccountingEngine.stepAt {σ π : Type} (e : AccountingEngine σ π) (c : Collaborators σ π)
    (k : Nat) : ℕ :=
  e.evolver_.currentStep (e.collaboratorsAt c (k + 1)).evolverObject

/-- The buffer `numberCashFlowsThisStep_` after `nextTimeStep` in iteration `k`. -/
def AccountingEngine.countsAt {σ π : Type} (e : AccountingEngine σ π) (c : Collaborators σ π)
    (k : Nat) : List ℕ :=
  (e.collaboratorsAt c (k + 1)).numberCashFlowsThisStep_

/-- The buffer `cashFlowsGenerated_` after `nextTimeStep` in iteration `k`. -/
def AccountingEngine.flowsAt {σ π : Type} (e : AccountingEngine σ π) (c : Collaborators σ π)
    (k : Nat) : List (List CashFlow) :=
  (e.collaboratorsAt c (k + 1)).cashFlowsGenerated_

/-- The entry `numberCashFlowsThisStep_[i]` in iteration `k`. -/
def AccountingEngine.countAt {σ π : Type} (e : AccountingEngine σ π) (c : Collaborators σ π)
    (k : Nat) (i : ℕ) : ℕ :=
  (e.countsAt c k).getD i 0

/-- The entry `cashFlowsGenerated_[i][j]` in iteration `k`. -/
def AccountingEngine.flowAt {σ π : Type} (e : AccountingEngine σ π) (c : Collaborators σ π)
    (k : Nat) (i j : ℕ) : CashFlow :=
  ((e.flowsAt c k).getD i []).getD j default

/-- The local `numeraire` of iteration `k`: `evolution_.numeraires()[currentStep]`. -/
def AccountingEngine.numeraireAt {σ π : Type} (e : AccountingEngine σ π)
    (c : Collaborators σ π) (k : Nat) : ℕ :=
  e.evolution_.numeraires.getD (e.stepAt c k) 0

/-- The local `nextNumeraire` of iteration `k`: `evolution_.numeraires()[currentStep + 1]`. -/
def AccountingEngine.nextNumeraireAt {σ π : Type} (e : AccountingEngine σ π)
    (c : Collaborators σ π) (k : Nat) : ℕ :=
  e.evolution_.numeraires.getD (e.stepAt c k + 1) 0

/-- The local `bonds` for cash flow `j` of product `i` in iteration `k`. -/
def AccountingEngine.bondsAt {σ π : Type} (e : AccountingEngine σ π) (c : Collaborators σ π)
    (k : Nat) (i j : ℕ) : ℚ :=
  (e.flowAt c k i j).amount
    * (e.discounters_.getD (e.flowAt c k i j).timeIndex {}).numeraireBonds (e.stateAt c k)
        (e.numeraireAt c k)

/-- The factor by which iteration `k` multiplies `principalInNumerairePortfolio` when the
product has not signalled completion. -/
def AccountingEngine.rebaseAt {σ π : Type} (e : AccountingEngine σ π) (c : Collaborators σ π)
    (k : Nat) : ℚ :=
  e.curveState_.discountRatio (e.nextNumeraireAt c k) (e.numeraireAt c k)

/-- The principal at the start of iteration `k` of a loop entered with principal `p`, none of
whose first `k` iterations is the last. -/
def AccountingEngine.principalFrom {σ π : Type} (e : AccountingEngine σ π)
    (c : Collaborators σ π) (p : ℚ) (k : Nat) : ℚ :=
  p * ∏ l ∈ Finset.range k, e.rebaseAt c l

/-- No index of iteration `k` leaves its container: `currentStep` is a position of
`numeraires()`, so is `currentStep + 1` unless the product signalled completion, and for every
product the two buffers have its entry, the flow buffer holds as many flows as the count says
and every such flow has a discounter. -/
def AccountingEngine.InRangeAt {σ π : Type} (e : AccountingEngine σ π) (c : Collaborators σ π)
    (k : Nat) : Prop :=
  e.stepAt c k < e.evolution_.numeraires.length ∧
  (e.doneAt c k = false → e.stepAt c k + 1 < e.evolution_.numeraires.length) ∧
  ∀ i, i < e.numberProducts_ →
    i < (e.countsAt c k).length ∧ i < (e.flowsAt c k).length ∧
    ∀ j, j < e.countAt c k i →
      j < ((e.flowsAt c k).getD i []).length ∧
      (e.flowAt c k i j).timeIndex < e.discounters_.length

instance {σ π : Type} (e : AccountingEngine σ π) (c : Collaborators σ π) (k : Nat) :
    Decidable (e.InRangeAt c k) := by
  unfold AccountingEngine.InRangeAt
  infer_instance

/-- Every load and store of iteration `k` is inside its container: `InRangeAt` without the
condition on the time indices, which concerns a lookup that loads nothing. -/
def AccountingEngine.LoadsInRangeAt {σ π : Type} (e : AccountingEngine σ π)
    (c : Collaborators σ π) (k : Nat) : Prop :=
  e.stepAt c k < e.evolution_.numeraires.length ∧
  (e.doneAt c k = false → e.stepAt c k + 1 < e.evolution_.numeraires.length) ∧
  ∀ i, i < e.numberProducts_ →
    i < (e.countsAt c k).length ∧ i < (e.flowsAt c k).length ∧
    ∀ j, j < e.countAt c k i → j < ((e.flowsAt c k).getD i []).length

instance {σ π : Type} (e : AccountingEngine σ π) (c : Collaborators σ π) (k : Nat) :
    Decidable (e.LoadsInRangeAt c k) := by
  unfold AccountingEngine.LoadsInRangeAt
  infer_instance

/-- The product first signals completion in iteration `n - 1`, that is at step `n`. -/
def AccountingEngine.CompletesAt {σ π : Type} (e : AccountingEngine σ π)
    (c : Collaborators σ π) (n : Nat) : Prop :=
  1 ≤ n ∧ (∀ k, k + 1 < n → e.doneAt c k = false) ∧ e.doneAt c (n - 1) = true

/-- The closed form of `numerairesHeld_[i]` after `n` iterations of a loop entered from `c` with
principal one and holdings zero: every flow's bonds over the principal of its own iteration. -/
def AccountingEngine.heldAfter {σ π : Type} (e : AccountingEngine σ π) (c : Collaborators σ π)
    (n : Nat) (i : ℕ) : ℚ :=
  ∑ k ∈ Finset.range n, ∑ j ∈ Finset.range (e.countAt c k i),
    e.bondsAt c k i j / e.principalFrom c 1 k

/-- The engine after a run of `n` iterations that left `held` in `numerairesHeld_`. -/
def AccountingEngine.afterPath {σ π : Type} (e : AccountingEngine σ π) (n : Nat)
    (held : List ℚ) : AccountingEngine σ π :=
  { e with
    evolverObject := (e.collaboratorsAt e.entryShared n).evolverObject
    productObject := (e.collaboratorsAt e.entryShared n).productObject
    numberCashFlowsThisStep_ := (e.collaboratorsAt e.entryShared n).numberCashFlowsThisStep_
    cashFlowsGenerated_ := (e.collaboratorsAt e.entryShared n).cashFlowsGenerated_
    numerairesHeld_ := held }

/-! ## The claimed closed form, and test doubles -/

/-- A curve state given by its discount factors: `discountRatio(i, j) = P(i) / P(j)`. -/
def curveOf (discountFactors : List ℚ) : CurveState :=
  { discountRatio := fun i j => discountFactors.getD i 1 / discountFactors.getD j 1 }

/-- An evolver double that replays a list of curve states.  Its object counts the calls of
`advanceStep` on the current path; `currentStep` is zero in the first iteration. -/
def replayEvolver (states : List CurveState) : MarketModelEvolver ℕ :=
  { startNewPath := fun _ => (1, 0)
    advanceStep := fun k => (1, k + 1)
    currentState := fun k => states.getD (k - 1) default
    currentStep := fun k => k - 1 }

/-- Writes the flows of one product over the front of its buffer and leaves the rest of the
buffer as it was. -/
def overwriteFront (buffer generated : List CashFlow) : List CashFlow :=
  generated ++ buffer.drop generated.length

/-- A product double that replays a schedule: for every step the completion flag and the flows
of every product.  It writes every count, and writes the generated flows over the front of each
flow buffer.  Its object counts the calls of `nextTimeStep` since the last `reset`. -/
def replayProduct (numberOfProducts maxFlows : ℕ) (times : List ℚ)
    (schedule : List (Bool × List (List CashFlow))) : MarketModelProduct ℕ :=
  { numberOfProducts := numberOfProducts
    maxNumberOfCashFlowsPerProductPerStep := maxFlows
    possibleCashFlowTimes := times
    reset := fun _ => 0
    nextTimeStep := fun k _ _ flows =>
      { done := (schedule.getD k (true, [])).1
        product := k + 1
        numberCashFlowsThisStep := (schedule.getD k (true, [])).2.map List.length
        cashFlowsGenerated := List.zipWith overwriteFront flows (schedule.getD k (true, [])).2 } }

/-- A three-step path for three products under the numeraires `[0, 1, 1]`: product 0 is paid
100 at step 2 and 50 at step 3, product 1 is paid 8 and then 4 at step 1, product 2 is paid
nothing. -/
def threeStepEngine : AccountingEngine ℕ ℕ :=
  newAccountingEngine (fun _ => curveOf [1, 1 / 2, 1 / 4])
    (replayEvolver [curveOf [1, 1 / 2, 1 / 4], curveOf [1, 1 / 3, 1 / 5], curveOf [1, 1, 1]]) 0
    (replayProduct 3 2 [1, 2, 3]
      [(false, [[], [⟨0, 8⟩, ⟨1, 4⟩], []]), (false, [[⟨1, 100⟩], [], []]),
        (true, [[⟨2, 50⟩], [], []])]) 0
    { rateTimes := [1, 2, 3], numeraires := [0, 1, 1] } 10

/-- A single-step path for two products under the numeraire sequence `[0]`: product 0 is paid
one flow of 7, product 1 is paid 2 and 3. -/
def singleStepEngine : AccountingEngine ℕ ℕ :=
  newAccountingEngine (fun _ => curveOf [1, 1 / 2]) (replayEvolver [curveOf [1, 1 / 2]]) 0
    (replayProduct 2 2 [1, 2] [(true, [[⟨0, 7⟩], [⟨0, 2⟩, ⟨1, 3⟩]])]) 0
    { rateTimes := [1, 2], numeraires := [0] } 10

/-- The scenario of the specification: one product, three steps under the numeraires
`[0, 0, 1]`, 100 paid at step 2 and 50 paid at step 3. -/
def scenarioEngine : AccountingEngine ℕ ℕ :=
  newAccountingEngine (fun _ => curveOf [1, 1 / 2])
    (replayEvolver [curveOf [1, 1 / 2], curveOf [1, 1 / 3], curveOf [1, 1 / 4]]) 0
    (replayProduct 1 1 [1, 2, 3]
      [(false, [[]]), (false, [[⟨1, 100⟩]]), (true, [[⟨2, 50⟩]])]) 0
    { rateTimes := [1, 2, 3], numeraires := [0, 0, 1] } 10

/-- A two-step path for one product under the numeraires `[0, 1]`: nothing is paid at step 1,
100 is paid at step 2.  The member `curveState_` and the replayed curve states are given. -/
def twoStepEngine (member : CurveState) (path : List CurveState) : AccountingEngine ℕ ℕ :=
  newAccountingEngine (fun _ => member) (replayEvolver path) 0
    (replayProduct 1 1 [1, 2] [(false, [[]]), (true, [[⟨1, 100⟩]])]) 0
    { rateTimes := [1, 2], numeraires := [0, 1] } 10

/-- The specification of `numeraireBonds` for a payment at the rate time of index
`paymentIndex`: the discount factor to the payment date over the discount factor to the
maturity of the numeraire, both from the curve state. -/
def specifiedNumeraireBonds (curveState : CurveState) (paymentIndex numeraire : ℕ) : ℚ :=
  curveState.discountRatio paymentIndex numeraire

/-! ## Two runs -/

/-- A freshly constructed engine over the collaborators of `e`, in the state they are in. -/
def AccountingEngine.rebuilt {σ π : Type} (e : AccountingEngine σ π)
    (newCurveState : List ℚ → CurveState) : AccountingEngine σ π :=
  newAccountingEngine newCurveState e.evolver_ e.evolverObject e.product_ e.productObject
    e.evolution_ e.initialNumeraireValue_

/-- The members that `singlePathValues` reads and never writes are equal in both engines. -/
def AccountingEngine.SameMembers {σ π : Type} (e e1 : AccountingEngine σ π) : Prop :=
  e.evolution_.numeraires = e1.evolution_.numeraires ∧
  e.initialNumeraireValue_ = e1.initialNumeraireValue_ ∧
  e.numberProducts_ = e1.numberProducts_ ∧
  e.curveState_ = e1.curveState_ ∧
  e.discounters_ = e1.discounters_

/-- Two paths of `n` steps show their engines the same schedule: at every step the same
completion flag, curve state and step index, for every product the same flow count, and the
same flows below the count.  Buffer entries at or above the count may differ. -/
def AccountingEngine.SamePath {σ π : Type} (e e1 : AccountingEngine σ π)
    (c c1 : Collaborators σ π) (n : Nat) : Prop :=
  ∀ k, k < n →
    e.doneAt c k = e1.doneAt c1 k ∧ e.stateAt c k = e1.stateAt c1 k ∧
    e.stepAt c k = e1.stepAt c1 k ∧
    ∀ i, i < e.numberProducts_ →
      e.countAt c k i = e1.countAt c1 k i ∧
      ∀ j, j < e.countAt c k i → e.flowAt c k i j = e1.flowAt c1 k i j

/-- Two successive calls of `singlePathValues`: the result of the second call, made on the
engine that the first call left. -/
def AccountingEngine.secondRun {σ π : Type} (fuel : Nat) (e : AccountingEngine σ π)
    (values other : List ℚ) : Except Fault (AccountingEngine σ π × List ℚ) :=
  match e.singlePathValues fuel values with
  | Except.error f => Except.error f
  | Except.ok (e1, _) => e1.singlePathValues fuel other

/-- The path of the second call, run instead on an engine freshly constructed over the
collaborators as the first call left them. -/
def AccountingEngine.secondRunRebuilt {σ π : Type} (newCurveState : List ℚ → CurveState)
    (fuel : Nat) (e : AccountingEngine σ π) (values other : List ℚ) :
    Except Fault (AccountingEngine σ π × List ℚ) :=
  match e.singlePathValues fuel values with
  | Except.error f => Except.error f
  | Except.ok (e1, _) => (e1.rebuilt newCurveState).singlePathValues fuel other

/-- A product double that leaves the buffers alone when it generates nothing.  Its object
counts the calls of `reset`.  On the first path product 0 is paid one flow of 7 and the path
completes; on every later path nothing is generated, nothing is written and the path
completes. -/
def lazyProduct : MarketModelProduct ℕ :=
  { numberOfProducts := 1
    maxNumberOfCashFlowsPerProductPerStep := 1
    possibleCashFlowTimes := [1]
    reset := fun p => p + 1
    nextTimeStep := fun p _ counts flows =>
      if p = 1 then
        { done := true, product := p, numberCashFlowsThisStep := [1],
          cashFlowsGenerated := [[⟨0, 7⟩]] }
      else
        { done := true, product := p, numberCashFlowsThisStep := counts,
          cashFlowsGenerated := flows } }

/-- An engine over `lazyProduct`, with single-step paths under the numeraire sequence `[0]`. -/
def lazyEngine : AccountingEngine ℕ ℕ :=
  newAccountingEngine (fun _ => curveOf [1]) (replayEvolver [curveOf [1]]) 0 lazyProduct 0
    { rateTimes := [1], numeraires := [0] } 10

/-- The engine `threeStepEngine` in a used state: holdings and both scratch buffers are full of
entries of an earlier path. -/
def usedThreeStepEngine : AccountingEngine ℕ ℕ :=
  { threeStepEngine with
    numerairesHeld_ := [5, 6, 7]
    numberCashFlowsThisStep_ := [2, 1, 2]
    cashFlowsGenerated_ := [[⟨0, 9⟩, ⟨0, 9⟩], [⟨1, 9⟩, ⟨1, 9⟩], [⟨2, 9⟩, ⟨2, 9⟩]] }

/-- A three-step path for one product under the constant numeraire sequence `[1, 1, 1]`: 8 is
paid at step 1 and 50 at step 3. -/
def constantNumeraireEngine : AccountingEngine ℕ ℕ :=
  newAccountingEngine (fun _ => curveOf [1, 1 / 2, 1 / 4])
    (replayEvolver [curveOf [1, 1 / 2, 1 / 4], curveOf [1, 1 / 3, 1 / 5], curveOf [1, 1, 1]]) 0
    (replayProduct 1 1 [1, 2, 3]
      [(false, [[⟨0, 8⟩]]), (false, [[]]), (true, [[⟨2, 50⟩]])]) 0
    { rateTimes := [1, 2, 3], numeraires := [1, 1, 1] } 10

/-! ## Faults, sizes and call counts -/

/-- An evolver double that never moves: the step index is always zero and the curve state is
always the same. -/
def stillEvolver : MarketModelEvolver ℕ :=
  { startNewPath := fun s => (1, s)
    advanceStep := fun s => (1, s)
    currentState := fun _ => default
    currentStep := fun _ => 0 }

/-- A product double that never signals completion and generates nothing: every call writes
a zero count and returns `false`. -/
def endlessProduct : MarketModelProduct ℕ :=
  { numberOfProducts := 1
    maxNumberOfCashFlowsPerProductPerStep := 1
    possibleCashFlowTimes := [1]
    reset := fun p => p
    nextTimeStep := fun p _ _ _ =>
      { done := false, product := p, numberCashFlowsThisStep := [0],
        cashFlowsGenerated := [[⟨0, 0⟩]] } }

/-- An engine whose product never signals completion, with every index in range at every
step. -/
def endlessEngine : AccountingEngine ℕ ℕ :=
  newAccountingEngine (fun _ => default) stillEvolver 0 endlessProduct 0
    { rateTimes := [1, 2], numeraires := [0, 0] } 10

/-- A single-step path whose only flow carries the time index 5, with one possible cash-flow
time and so one discounter. -/
def strayIndexEngine : AccountingEngine ℕ ℕ :=
  newAccountingEngine (fun _ => curveOf [1, 1 / 2]) (replayEvolver [curveOf [1, 1 / 2]]) 0
    (replayProduct 1 1 [1] [(true, [[⟨5, 7⟩]])]) 0
    { rateTimes := [1, 2], numeraires := [0] } 10

/-- The sizes that the constructor gives the members: `numerairesHeld_` and both scratch buffers
have one entry per product, every flow buffer has
`maxNumberOfCashFlowsPerProductPerStep` entries, and `discounters_` holds the discounter of
every possible cash-flow time, in the order of the times. -/
def AccountingEngine.Sized {σ π : Type} (e : AccountingEngine σ π) : Prop :=
  e.numberProducts_ = e.product_.numberOfProducts ∧
  e.numerairesHeld_.length = e.product_.numberOfProducts ∧
  e.numberCashFlowsThisStep_.length = e.product_.numberOfProducts ∧
  e.cashFlowsGenerated_.length = e.product_.numberOfProducts ∧
  (∀ row, row ∈ e.cashFlowsGenerated_ →
    row.length = e.product_.maxNumberOfCashFlowsPerProductPerStep) ∧
  e.discounters_
    = e.product_.possibleCashFlowTimes.map (fun t => newDiscounter t e.evolution_.rateTimes)

/-- The product writes into the two buffers it receives without resizing them: buffers of the
constructed sizes come back with the constructed sizes. -/
def MarketModelProduct.KeepsSizes {π : Type} (product : MarketModelProduct π) : Prop :=
  ∀ (p : π) (curveState : CurveState) (counts : List ℕ) (flows : List (List CashFlow)),
    counts.length = product.numberOfProducts →
    flows.length = product.numberOfProducts →
    (∀ row, row ∈ flows → row.length = product.maxNumberOfCashFlowsPerProductPerStep) →
    (product.nextTimeStep p curveState counts flows).numberCashFlowsThisStep.length
      = product.numberOfProducts ∧
    (product.nextTimeStep p curveState counts flows).cashFlowsGenerated.length
      = product.numberOfProducts ∧
    ∀ row, row ∈ (product.nextTimeStep p curveState counts flows).cashFlowsGenerated →
      row.length = product.maxNumberOfCashFlowsPerProductPerStep

/-- The part of `InRangeAt` that concerns the two scratch buffers and the discounters. -/
def AccountingEngine.BuffersInRangeAt {σ π : Type} (e : AccountingEngine σ π)
    (c : Collaborators σ π) (k : Nat) : Prop :=
  ∀ i, i < e.numberProducts_ →
    i < (e.countsAt c k).length ∧ i < (e.flowsAt c k).length ∧
    ∀ j, j < e.countAt c k i →
      j < ((e.flowsAt c k).getD i []).length ∧
      (e.flowAt c k i j).timeIndex < e.discounters_.length

instance {σ π : Type} (e : AccountingEngine σ π) (c : Collaborators σ π) (k : Nat) :
    Decidable (e.BuffersInRangeAt c k) := by
  unfold AccountingEngine.BuffersInRangeAt
  infer_instance

/-- The engine `e` over another evolver, of the same object type. -/
def AccountingEngine.withEvolver {σ π : Type} (e : AccountingEngine σ π)
    (evolver : MarketModelEvolver σ) (evolverObject : σ) : AccountingEngine σ π :=
  { e with evolver_ := evolver, evolverObject := evolverObject }

/-- An evolver with a call counter: the second component of its object counts the calls of
`advanceStep` since the last `startNewPath`. -/
def countingEvolver {σ : Type} (evolver : MarketModelEvolver σ) : MarketModelEvolver (σ × ℕ) :=
  { startNewPath := fun s => ((evolver.startNewPath s.1).1, ((evolver.startNewPath s.1).2, 0))
    advanceStep := fun s => ((evolver.advanceStep s.1).1, ((evolver.advanceStep s.1).2, s.2 + 1))
    currentState := fun s => evolver.currentState s.1
    currentStep := fun s => evolver.currentStep s.1 }

/-- A product with a call counter: the second component of its object counts the calls of
`nextTimeStep` since the last `reset`. -/
def countingProduct {π : Type} (product : MarketModelProduct π) :
    MarketModelProduct (π × ℕ) :=
  { numberOfProducts := product.numberOfProducts
    maxNumberOfCashFlowsPerProductPerStep := product.maxNumberOfCashFlowsPerProductPerStep
    possibleCashFlowTimes := product.possibleCashFlowTimes
    reset := fun p => (product.reset p.1, 0)
    nextTimeStep := fun p curveState counts flows =>
      { done := (product.nextTimeStep p.1 curveState counts flows).done
        product := ((product.nextTimeStep p.1 curveState counts flows).product, p.2 + 1)
        numberCashFlowsThisStep :=
          (product.nextTimeStep p.1 curveState counts flows).numberCashFlowsThisStep
        cashFlowsGenerated :=
          (product.nextTimeStep p.1 curveState counts flows).cashFlowsGenerated } }

/-- The engine `e` with call counters attached to its two collaborators. -/
def AccountingEngine.counting {σ π : Type} (e : AccountingEngine σ π) :
    AccountingEngine (σ × ℕ) (π × ℕ) :=
  { evolver_ := countingEvolver e.evolver_
    evolverObject := (e.evolverObject, 0)
    product_ := countingProduct e.product_
    productObject := (e.productObject, 0)
    evolution_ := e.evolution_
    initialNumeraireValue_ := e.initialNumeraireValue_
    numberProducts_ := e.numberProducts_
    numerairesHeld_ := e.numerairesHeld_
    curveState_ := e.curveState_
    numberCashFlowsThisStep_ := e.numberCashFlowsThisStep_
    cashFlowsGenerated_ := e.cashFlowsGenerated_
    discounters_ := e.discounters_ }

/-- The collaborators `c` with the call counters `a` and `b` attached. -/
def Collaborators.counted {σ π : Type} (c : Collaborators σ π) (a b : ℕ) :
    Collaborators (σ × ℕ) (π × ℕ) :=
  { evolverObject := (c.evolverObject, a)
    productObject := (c.productObject, b)
    numberCashFlowsThisStep_ := c.numberCashFlowsThisStep_
    cashFlowsGenerated_ := c.cashFlowsGenerated_ }

/-- The evolver `evolver` with other weights: `startNewPath` returns `w0` and `advanceStep`
returns `w`, and the curve states and step indices are those of `evolver`. -/
def weightedEvolver {σ : Type} (w0 w : ℚ) (evolver : MarketModelEvolver σ) :
    MarketModelEvolver σ :=
  { evolver with
    startNewPath := fun s => (w0, (evolver.startNewPath s).2)
    advanceStep := fun s => (w, (evolver.advanceStep s).2) }

/-- A product double for one product that hands both buffers back with two entries: it
completes at once and generates nothing. -/
def growingProduct : MarketModelProduct ℕ :=
  { numberOfProducts := 1
    maxNumberOfCashFlowsPerProductPerStep := 1
    possibleCashFlowTimes := [1]
    reset := fun p => p
    nextTimeStep := fun p _ _ _ =>
      { done := true, product := p, numberCashFlowsThisStep := [0, 0],
        cashFlowsGenerated := [[⟨0, 0⟩], [⟨0, 0⟩]] } }

/-- An engine over `growingProduct`, with single-step paths under the numeraire sequence
`[0]`. -/
def growingEngine : AccountingEngine ℕ ℕ :=
  newAccountingEngine (fun _ => curveOf [1]) (replayEvolver [curveOf [1]]) 0 growingProduct 0
    { rateTimes := [1], numeraires := [0] } 10

/-- A product double for one product with up to two flows per step that hands the flow buffer
back with one entry while it reports two flows: it completes at once. -/
def shrinkingProduct : MarketModelProduct ℕ :=
  { numberOfProducts := 1
    maxNumberOfCashFlowsPerProductPerStep := 2
    possibleCashFlowTimes := [1]
    reset := fun p => p
    nextTimeStep := fun p _ _ _ =>
      { done := true, product := p, numberCashFlowsThisStep := [2],
        cashFlowsGenerated := [[⟨0, 7⟩]] } }

/-- An engine over `shrinkingProduct`, with single-step paths under the numeraire sequence
`[0]`. -/
def shrinkingEngine : AccountingEngine ℕ ℕ :=
  newAccountingEngine (fun _ => curveOf [1]) (replayEvolver [curveOf [1]]) 0 shrinkingProduct 0
    { rateTimes := [1], numeraires := [0] } 10

/-- A product double for two products with up to two flows per step that writes both buffers
in full at every step: product 0 is paid 7, product 1 is paid 2 and 3, and the path completes
at the second step.  Its object counts the calls of `nextTimeStep` since the last `reset`. -/
def steadyProduct : MarketModelProduct ℕ :=
  { numberOfProducts := 2
    maxNumberOfCashFlowsPerProductPerStep := 2
    possibleCashFlowTimes := [1, 2]
    reset := fun _ => 0
    nextTimeStep := fun p _ _ _ =>
      { done := decide (1 ≤ p), product := p + 1, numberCashFlowsThisStep := [1, 2],
        cashFlowsGenerated := [[⟨0, 7⟩, ⟨0, 0⟩], [⟨0, 2⟩, ⟨1, 3⟩]] } }

/-- An engine over `steadyProduct`, with two-step paths under the numeraire sequence `[0, 1]`
and discount factors `1, 1/2` everywhere. -/
def steadyEngine : AccountingEngine ℕ ℕ :=
  newAccountingEngine (fun _ => curveOf [1, 1 / 2])
    (replayEvolver [curveOf [1, 1 / 2], curveOf [1, 1 / 2]]) 0 steadyProduct 0
    { rateTimes := [1, 2], numeraires := [0, 1] } 10

/-! ## The loops -/

theorem readAt_of_lt {α : Type} (xs : List α) (i : ℕ) (d : α) (h : i < xs.length) :
    readAt xs i = Except.ok (xs.getD i d) := by
  simp [readAt, List.getD, List.getElem?_eq_getElem h]

theorem addCashFlows_loads (discounters : List Discounter) (curveState : CurveState)
    (numeraire : ℕ) (principal : ℚ) (cashflows : List CashFlow) (i : ℕ) (n : Nat)
    (held : List ℚ) (hi : 0 < n → i < held.length)
    (hj : ∀ j, j < n → j < cashflows.length) :
    addCashFlows discounters curveState numeraire principal cashflows i n held
      = Except.ok (held.set i (held.getD i 0 + ∑ j ∈ Finset.range n,
          (cashflows.getD j default).amount
            * (discounters.getD (cashflows.getD j default).timeIndex {}).numeraireBonds
                curveState numeraire / principal)) := by
  induction n with
  | zero =>
    simp only [addCashFlows, Finset.range_zero, Finset.sum_empty, add_zero]
    congr 1
    by_cases h : i < held.length
    · apply List.ext_getElem (by simp)
      intro m h1 h2
      by_cases hm : i = m
      · subst hm; simp [List.getD, List.getElem?_eq_getElem h]
      · simp [List.getElem_set_ne hm]
    · simp [List.set_eq_of_length_le (Nat.le_of_not_lt h)]
  | succ n ih =>
    have hlt : i < held.length := hi (Nat.succ_pos n)
    have ih1 := ih (fun _ => hlt) (fun j hjn => hj j (Nat.lt_succ_of_lt hjn))
    have h1 := hj n (Nat.lt_succ_self n)
    simp only [addCashFlows, ih1]
    rw [readAt_of_lt cashflows n default h1]
    simp only
    rw [readAt_of_lt _ i 0 (by simpa using hlt)]
    simp only [List.set_set, Finset.sum_range_succ]
    congr 2
    simp [List.getD, List.getElem?_set, hlt]
    ring


theorem getD_set_self (xs : List ℚ) (i : ℕ) (v : ℚ) (h : i < xs.length) :
    (xs.set i v).getD i 0 = v := by
  simp [List.getD, List.getElem?_set, h]

theorem getD_set_other (xs : List ℚ) (i m : ℕ) (v : ℚ) (h : i ≠ m) :
    (xs.set i v).getD m 0 = xs.getD m 0 := by
  simp [List.getD, List.getElem?_set, h]

theorem addProducts_loads (discounters : List Discounter) (curveState : CurveState)
    (numeraire : ℕ) (principal : ℚ) (counts : List ℕ) (flows : List (List CashFlow))
    (n : Nat) (held : List ℚ) (hn : n ≤ held.length)
    (hin : ∀ i, i < n → i < counts.length ∧ i < flows.length ∧
      ∀ j, j < counts.getD i 0 → j < (flows.getD i []).length) :
    ∃ held1, addProducts discounters curveState numeraire principal counts flows n held
        = Except.ok held1 ∧ held1.length = held.length ∧
      ∀ i, held1.getD i 0 = held.getD i 0 + if i < n then
        ∑ j ∈ Finset.range (counts.getD i 0),
          ((flows.getD i []).getD j default).amount
            * (discounters.getD ((flows.getD i []).getD j default).timeIndex {}).numeraireBonds
                curveState numeraire / principal
        else 0 := by
  induction n with
  | zero => exact ⟨held, by simp [addProducts]⟩
  | succ n ih =>
    obtain ⟨held1, hrun, hlen, hval⟩ :=
      ih (Nat.le_of_succ_le hn) (fun i hi => hin i (Nat.lt_succ_of_lt hi))
    obtain ⟨h1, h2, h3⟩ := hin n (Nat.lt_succ_self n)
    have hlt : n < held1.length := by omega
    have hadd := addCashFlows_loads discounters curveState numeraire principal
      (flows.getD n []) n (counts.getD n 0) held1 (fun _ => hlt) h3
    have hrun1 : addProducts discounters curveState numeraire principal counts flows (n + 1)
        held = addCashFlows discounters curveState numeraire principal (flows.getD n []) n
          (counts.getD n 0) held1 := by
      simp only [addProducts, hrun]
      rw [readAt_of_lt flows n [] h2]
      simp only
      rw [readAt_of_lt counts n 0 h1]
    refine ⟨_, hrun1.trans hadd, ?_, ?_⟩
    · simpa using hlen
    · intro i
      by_cases hi : n = i
      · subst hi
        rw [getD_set_self _ _ _ hlt, hval n]
        simp
      · rw [getD_set_other _ _ _ _ hi, hval i]
        have : (i < n + 1) = (i < n) := by
          apply propext; constructor <;> intro h <;> omega
        simp only [this]


theorem iteration_loads {σ π : Type} (e : AccountingEngine σ π) (c : Collaborators σ π)
    (w p : ℚ) (held : List ℚ) (hlen : held.length = e.numberProducts_)
    (hin : e.LoadsInRangeAt c 0) :
    ∃ held1, e.iteration ⟨c, w, p, held⟩
        = Except.ok (e.doneAt c 0,
            ⟨(e.callCollaborators c).2, w * (e.evolver_.advanceStep c.evolverObject).1,
              if e.doneAt c 0 = true then p else p * e.rebaseAt c 0, held1⟩) ∧
      held1.length = e.numberProducts_ ∧
      ∀ i, i < e.numberProducts_ → held1.getD i 0 = held.getD i 0
        + ∑ j ∈ Finset.range (e.countAt c 0 i), e.bondsAt c 0 i j / p := by
  obtain ⟨hstep, hnext, hprod⟩ := hin
  obtain ⟨held1, hrun, hlen1, hval⟩ := addProducts_loads e.discounters_ (e.stateAt c 0)
    (e.numeraireAt c 0) p (e.countsAt c 0) (e.flowsAt c 0) e.numberProducts_ held
    (le_of_eq hlen.symm) hprod
  refine ⟨held1, ?_, hlen1.trans hlen, ?_⟩
  · have hnum := readAt_of_lt e.evolution_.numeraires (e.stepAt c 0) 0 hstep
    simp only [AccountingEngine.stepAt, AccountingEngine.collaboratorsAt] at hnum
    simp only [AccountingEngine.stateAt, AccountingEngine.numeraireAt, AccountingEngine.countsAt,
      AccountingEngine.flowsAt, AccountingEngine.stepAt, AccountingEngine.collaboratorsAt]
      at hrun
    simp only [AccountingEngine.iteration, hnum, hrun]
    by_cases hd : e.doneAt c 0 = true
    · have hd1 : (e.callCollaborators c).1 = true := hd
      simp [hd, hd1]
    · have hd0 : e.doneAt c 0 = false := by simpa using hd
      have hd1 : (e.callCollaborators c).1 = false := hd0
      have hnx := readAt_of_lt e.evolution_.numeraires (e.stepAt c 0 + 1) 0 (hnext hd0)
      simp only [AccountingEngine.stepAt, AccountingEngine.collaboratorsAt] at hnx
      simp only [hd1, hnx, hd0]
      simp [AccountingEngine.rebaseAt, AccountingEngine.nextNumeraireAt,
        AccountingEngine.numeraireAt, AccountingEngine.stepAt, AccountingEngine.collaboratorsAt]
  · intro i hi
    rw [hval i]
    simp only [hi, if_true]
    rfl


theorem loads_of_inRangeAt {σ π : Type} (e : AccountingEngine σ π) (c : Collaborators σ π)
    (k : Nat) (h : e.InRangeAt c k) : e.LoadsInRangeAt c k :=
  ⟨h.1, h.2.1, fun i hi =>
    ⟨(h.2.2 i hi).1, (h.2.2 i hi).2.1, fun j hj => ((h.2.2 i hi).2.2 j hj).1⟩⟩

theorem iteration_spec {σ π : Type} (e : AccountingEngine σ π) (c : Collaborators σ π)
    (w p : ℚ) (held : List ℚ) (hlen : held.length = e.numberProducts_)
    (hin : e.InRangeAt c 0) :
    ∃ held1, e.iteration ⟨c, w, p, held⟩
        = Except.ok (e.doneAt c 0,
            ⟨(e.callCollaborators c).2, w * (e.evolver_.advanceStep c.evolverObject).1,
              if e.doneAt c 0 = true then p else p * e.rebaseAt c 0, held1⟩) ∧
      held1.length = e.numberProducts_ ∧
      ∀ i, i < e.numberProducts_ → held1.getD i 0 = held.getD i 0
        + ∑ j ∈ Finset.range (e.countAt c 0 i), e.bondsAt c 0 i j / p :=
  iteration_loads e c w p held hlen (loads_of_inRangeAt e c 0 hin)

theorem principalFrom_zero {σ π : Type} (e : AccountingEngine σ π) (c : Collaborators σ π)
    (p : ℚ) : e.principalFrom c p 0 = p := by
  simp [AccountingEngine.principalFrom]

theorem principalFrom_shift {σ π : Type} (e : AccountingEngine σ π) (c : Collaborators σ π)
    (p : ℚ) (k : Nat) :
    e.principalFrom c p (k + 1)
      = e.principalFrom (e.callCollaborators c).2 (p * e.rebaseAt c 0) k := by
  simp only [AccountingEngine.principalFrom, Finset.prod_range_succ']
  have : ∀ l, e.rebaseAt c (l + 1) = e.rebaseAt (e.callCollaborators c).2 l := fun _ => rfl
  simp only [this]
  ring

theorem principalFrom_succ {σ π : Type} (e : AccountingEngine σ π) (c : Collaborators σ π)
    (p : ℚ) (k : Nat) :
    e.principalFrom c p (k + 1) = e.principalFrom c p k * e.rebaseAt c k := by
  simp only [AccountingEngine.principalFrom, Finset.prod_range_succ]
  ring

theorem pathLoop_loads {σ π : Type} (e : AccountingEngine σ π) (m : Nat) :
    ∀ (c : Collaborators σ π) (w p : ℚ) (held : List ℚ) (fuel : Nat),
      held.length = e.numberProducts_ →
      (∀ k, k < m → e.doneAt c k = false) → e.doneAt c m = true →
      (∀ k, k ≤ m → e.LoadsInRangeAt c k) → m < fuel →
      ∃ s, e.pathLoop fuel ⟨c, w, p, held⟩ = Except.ok s ∧
        s.shared = e.collaboratorsAt c (m + 1) ∧
        s.principalInNumerairePortfolio = e.principalFrom c p m ∧
        s.numerairesHeld_.length = e.numberProducts_ ∧
        ∀ i, i < e.numberProducts_ → s.numerairesHeld_.getD i 0 = held.getD i 0
          + ∑ k ∈ Finset.range (m + 1), ∑ j ∈ Finset.range (e.countAt c k i),
              e.bondsAt c k i j / e.principalFrom c p k := by
  induction m with
  | zero =>
    intro c w p held fuel hlen _ hdone hin hfuel
    obtain ⟨fuel, rfl⟩ : ∃ f, fuel = f + 1 := ⟨fuel - 1, by omega⟩
    obtain ⟨held1, hit, hlen1, hval⟩ := iteration_loads e c w p held hlen (hin 0 (le_refl 0))
    refine ⟨⟨(e.callCollaborators c).2, w * (e.evolver_.advanceStep c.evolverObject).1, p,
      held1⟩, ?_, ?_, ?_, ?_, ?_⟩
    · simp only [AccountingEngine.pathLoop, hit, hdone, if_true]
    · rfl
    · simp [principalFrom_zero]
    · exact hlen1
    · intro i hi
      simp only [hval i hi, principalFrom_zero, Finset.sum_range_one, zero_add]
  | succ m ih =>
    intro c w p held fuel hlen hnot hdone hin hfuel
    obtain ⟨fuel, rfl⟩ : ∃ f, fuel = f + 1 := ⟨fuel - 1, by omega⟩
    obtain ⟨held1, hit, hlen1, hval⟩ := iteration_loads e c w p held hlen (hin 0 (Nat.zero_le _))
    have hd0 : e.doneAt c 0 = false := hnot 0 (Nat.succ_pos m)
    obtain ⟨s, hrun, hsh, hpr, hlen2, hval2⟩ := ih (e.callCollaborators c).2
      (w * (e.evolver_.advanceStep c.evolverObject).1) (p * e.rebaseAt c 0) held1 fuel hlen1
      (fun k hk => hnot (k + 1) (Nat.succ_lt_succ hk)) hdone
      (fun k hk => hin (k + 1) (Nat.succ_le_succ hk)) (by omega)
    refine ⟨s, ?_, ?_, ?_, hlen2, ?_⟩
    · simp only [AccountingEngine.pathLoop, hit, hd0]
      simpa using hrun
    · exact hsh
    · rw [hpr, principalFrom_shift]
    · intro i hi
      rw [hval2 i hi, hval i hi, Finset.sum_range_succ' _ (m + 1), add_assoc]
      congr 1
      rw [add_comm]
      congr 1
      · apply Finset.sum_congr rfl
        intro k _
        rw [principalFrom_shift]
        rfl
      · simp [principalFrom_zero]


theorem pathLoop_spec {σ π : Type} (e : AccountingEngine σ π) (m : Nat) :
    ∀ (c : Collaborators σ π) (w p : ℚ) (held : List ℚ) (fuel : Nat),
      held.length = e.numberProducts_ →
      (∀ k, k < m → e.doneAt c k = false) → e.doneAt c m = true →
      (∀ k, k ≤ m → e.InRangeAt c k) → m < fuel →
      ∃ s, e.pathLoop fuel ⟨c, w, p, held⟩ = Except.ok s ∧
        s.shared = e.collaboratorsAt c (m + 1) ∧
        s.principalInNumerairePortfolio = e.principalFrom c p m ∧
        s.numerairesHeld_.length = e.numberProducts_ ∧
        ∀ i, i < e.numberProducts_ → s.numerairesHeld_.getD i 0 = held.getD i 0
          + ∑ k ∈ Finset.range (m + 1), ∑ j ∈ Finset.range (e.countAt c k i),
              e.bondsAt c k i j / e.principalFrom c p k :=
  fun c w p held fuel hlen hnot hdone hin hfuel =>
    pathLoop_loads e m c w p held fuel hlen hnot hdone
      (fun k hk => loads_of_inRangeAt e c k (hin k hk)) hfuel

theorem writeValues_spec (held : List ℚ) (initialNumeraireValue : ℚ) (n : Nat)
    (values : List ℚ) (hn : n ≤ held.length) (hv : n ≤ values.length) :
    ∃ values1, writeValues held initialNumeraireValue n values = Except.ok values1 ∧
      values1.length = values.length ∧
      ∀ i, values1.getD i 0
        = if i < n then held.getD i 0 * initialNumeraireValue else values.getD i 0 := by
  induction n with
  | zero => exact ⟨values, by simp [writeValues]⟩
  | succ n ih =>
    obtain ⟨values1, hrun, hlen, hval⟩ := ih (Nat.le_of_succ_le hn) (Nat.le_of_succ_le hv)
    have hlt : n < values1.length := by omega
    refine ⟨values1.set n (held.getD n 0 * initialNumeraireValue), ?_, ?_, ?_⟩
    · simp only [writeValues, hrun]
      rw [readAt_of_lt held n 0 (show n < held.length by omega)]
      simp [hlt]
    · simpa using hlen
    · intro i
      by_cases hi : n = i
      · subst hi
        rw [getD_set_self _ _ _ hlt]
        simp
      · rw [getD_set_other _ _ _ _ hi, hval i]
        have : (i < n + 1) = (i < n) := by
          apply propext; constructor <;> intro h <;> omega
        simp only [this]

theorem getD_replicate_zero (n i : Nat) : (List.replicate n (0 : ℚ)).getD i 0 = 0 := by
  by_cases h : i < n
  · simp [List.getD, List.getElem?_replicate, h]
  · simp [List.getD, List.getElem?_replicate, h]

theorem singlePathValues_loads {σ π : Type} (e : AccountingEngine σ π) (values : List ℚ)
    (n fuel : Nat) (hheld : e.numerairesHeld_.length = e.numberProducts_)
    (hvalues : e.numberProducts_ ≤ values.length)
    (hdone : e.CompletesAt e.entryShared n)
    (hin : ∀ k, k < n → e.LoadsInRangeAt e.entryShared k) (hfuel : n ≤ fuel) :
    ∃ held1 values1,
      e.singlePathValues fuel values = Except.ok (e.afterPath n held1, values1) ∧
      held1.length = e.numberProducts_ ∧ values1.length = values.length ∧
      (∀ i, i < e.numberProducts_ → held1.getD i 0 = e.heldAfter e.entryShared n i) ∧
      (∀ i, i < e.numberProducts_ →
        values1.getD i 0 = e.heldAfter e.entryShared n i * e.initialNumeraireValue_) ∧
      (∀ i, e.numberProducts_ ≤ i → values1.getD i 0 = values.getD i 0) := by
  obtain ⟨hn, hnot, hlast⟩ := hdone
  obtain ⟨m, rfl⟩ : ∃ m, n = m + 1 := ⟨n - 1, by omega⟩
  obtain ⟨s, hrun, hsh, _, hlen, hval⟩ := pathLoop_loads e m e.entryShared
    (e.evolver_.startNewPath e.evolverObject).1 1 (List.replicate e.numerairesHeld_.length 0)
    fuel (by simpa using hheld) (fun k hk => hnot k (by omega)) (by simpa using hlast)
    (fun k hk => hin k (by omega)) (by omega)
  obtain ⟨values1, hwr, hlen1, hval1⟩ := writeValues_spec s.numerairesHeld_
    e.initialNumeraireValue_ s.numerairesHeld_.length values (le_refl _) (by omega)
  have hheldv : ∀ i, i < e.numberProducts_ →
      s.numerairesHeld_.getD i 0 = e.heldAfter e.entryShared (m + 1) i := by
    intro i hi
    rw [hval i hi, getD_replicate_zero, zero_add]
    rfl
  refine ⟨s.numerairesHeld_, values1, ?_, hlen, hlen1, hheldv, ?_, ?_⟩
  · have hentry : e.entryState = ⟨e.entryShared, (e.evolver_.startNewPath e.evolverObject).1, 1,
        List.replicate e.numerairesHeld_.length 0⟩ := rfl
    simp only [AccountingEngine.singlePathValues, hentry, hrun, hwr,
      AccountingEngine.afterPath, hsh]
  · intro i hi
    rw [hval1 i, if_pos (by omega), hheldv i hi]
  · intro i hi
    rw [hval1 i, if_neg (by omega)]


theorem singlePathValues_spec {σ π : Type} (e : AccountingEngine σ π) (values : List ℚ)
    (n fuel : Nat) (hheld : e.numerairesHeld_.length = e.numberProducts_)
    (hvalues : e.numberProducts_ ≤ values.length)
    (hdone : e.CompletesAt e.entryShared n)
    (hin : ∀ k, k < n → e.InRangeAt e.entryShared k) (hfuel : n ≤ fuel) :
    ∃ held1 values1,
      e.singlePathValues fuel values = Except.ok (e.afterPath n held1, values1) ∧
      held1.length = e.numberProducts_ ∧ values1.length = values.length ∧
      (∀ i, i < e.numberProducts_ → held1.getD i 0 = e.heldAfter e.entryShared n i) ∧
      (∀ i, i < e.numberProducts_ →
        values1.getD i 0 = e.heldAfter e.entryShared n i * e.initialNumeraireValue_) ∧
      (∀ i, e.numberProducts_ ≤ i → values1.getD i 0 = values.getD i 0) :=
  singlePathValues_loads e values n fuel hheld hvalues hdone
    (fun k hk => loads_of_inRangeAt e e.entryShared k (hin k hk)) hfuel

theorem getElem?_of_getD (xs : List ℚ) (i : ℕ) (v : ℚ) (hi : i < xs.length)
    (h : xs.getD i 0 = v) : xs[i]? = some v := by
  rw [← h]
  simp [List.getD, List.getElem?_eq_getElem hi]

/-! ## The value of a path -/

/-- C2: `numeraireBonds` is the placeholder `return 1.0`.  For every discounter, curve state and
numeraire it returns one; for a payment at the first rate time, under the numeraire of index 1
and discount factors `1, 1/2, 1/4`, the specified ratio of discount factors is two. -/
theorem numeraireBonds_placeholder :
    (∀ (t : ℚ) (rateTimes : List ℚ) (curveState : CurveState) (numeraire : ℕ),
      (newDiscounter t rateTimes).numeraireBonds curveState numeraire = 1) ∧
    (newDiscounter 1 [1, 2, 3]).numeraireBonds (curveOf [1, 1 / 2, 1 / 4]) 1 = 1 ∧
    specifiedNumeraireBonds (curveOf [1, 1 / 2, 1 / 4]) 0 1 = 2 := by
  refine ⟨fun _ _ _ _ => rfl, rfl, ?_⟩
  simp [specifiedNumeraireBonds, curveOf]

/-! ## The rebase -/

/-- C3: the rebase of the first step boundary reads the member `curveState_`, whatever curve
states the evolver produces.  With a member of flat discount factors and an evolver state of
discount factors `1, 1/2` the principal becomes `1`, not `1/2`. -/
theorem rebase_reads_member_curveState :
    (∀ member first second : CurveState,
      ∃ s, (twoStepEngine member [first, second]).iteration
          (twoStepEngine member [first, second]).entryState = Except.ok (false, s) ∧
        s.principalInNumerairePortfolio = 1 * member.discountRatio 1 0) ∧
    (∃ s, (twoStepEngine (curveOf [1, 1]) [curveOf [1, 1 / 2], curveOf [1, 1 / 2]]).iteration
          (twoStepEngine (curveOf [1, 1]) [curveOf [1, 1 / 2], curveOf [1, 1 / 2]]).entryState
          = Except.ok (false, s) ∧
        s.principalInNumerairePortfolio = 1 ∧
        1 * ((twoStepEngine (curveOf [1, 1]) [curveOf [1, 1 / 2], curveOf [1, 1 / 2]]).stateAt
          (twoStepEngine (curveOf [1, 1])
            [curveOf [1, 1 / 2], curveOf [1, 1 / 2]]).entryShared 0).discountRatio 1 0
          = 1 / 2) := by
  constructor
  · intro member first second
    simp [AccountingEngine.iteration, AccountingEngine.entryState, AccountingEngine.entryShared,
      AccountingEngine.callCollaborators, twoStepEngine, newAccountingEngine, replayEvolver,
      replayProduct, overwriteFront, readAt, addProducts, addCashFlows]
  · simp [AccountingEngine.iteration, AccountingEngine.entryState, AccountingEngine.entryShared,
      AccountingEngine.callCollaborators, AccountingEngine.stateAt,
      AccountingEngine.collaboratorsAt, twoStepEngine, newAccountingEngine, replayEvolver,
      replayProduct, overwriteFront, readAt, addProducts, addCashFlows, curveOf]

/-- C4, as the code has it: on a two-step path whose numeraire is `A` at step 1 and `B` at
step 2, the rebase of step 1 moving to `B` with a non-zero factor `discountRatio(B, A)` that
the curve state read by the rebase shares with the curve state of step 1, a product whose only
flow is one flow of amount `a` at step 2 is worth
`a * numeraireBonds(state_2, B) / discountRatio(B, A) * initialNumeraireValue`: the flow is
divided by the principal that the rebase of step 1 left. -/
theorem singlePathValues_two_step_rebased {σ π : Type} (e : AccountingEngine σ π)
    (values : List ℚ) (fuel i A B : ℕ) (a : ℚ)
    (hheld : e.numerairesHeld_.length = e.numberProducts_)
    (hvalues : e.numberProducts_ ≤ values.length)
    (hdone : e.CompletesAt e.entryShared 2)
    (hin : ∀ k, k < 2 → e.InRangeAt e.entryShared k)
    (hA : e.numeraireAt e.entryShared 0 = A) (hB : e.numeraireAt e.entryShared 1 = B)
    (hnext : e.nextNumeraireAt e.entryShared 0 = B)
    (hfresh : e.curveState_.discountRatio B A = (e.stateAt e.entryShared 0).discountRatio B A)
    (hnone : e.countAt e.entryShared 0 i = 0) (hone : e.countAt e.entryShared 1 i = 1)
    (hamount : (e.flowAt e.entryShared 1 i 0).amount = a)
    (hfuel : 2 ≤ fuel) (hi : i < e.numberProducts_) :
    (e.stateAt e.entryShared 0).discountRatio B A ≠ 0 →
    ∃ e1 values1, e.singlePathValues fuel values = Except.ok (e1, values1) ∧
      values1[i]? = some (a
        * (e.discounters_.getD (e.flowAt e.entryShared 1 i 0).timeIndex {}).numeraireBonds
            (e.stateAt e.entryShared 1) B
        / (e.stateAt e.entryShared 0).discountRatio B A * e.initialNumeraireValue_) := by
  intro _
  obtain ⟨held1, values1, hrun, _, hlen, _, hval, _⟩ :=
    singlePathValues_spec e values 2 fuel hheld hvalues hdone hin hfuel
  refine ⟨_, values1, hrun, getElem?_of_getD values1 i _ (by omega) ?_⟩
  rw [hval i hi, ← hfresh]
  congr 1
  simp only [AccountingEngine.heldAfter, Finset.sum_range_succ, Finset.sum_range_zero, hnone,
    hone, zero_add, principalFrom_succ, principalFrom_zero, one_mul, AccountingEngine.rebaseAt,
    AccountingEngine.bondsAt, hnext, hA, hB, hamount]

/-- Witness of the two-step rebase on `twoStepEngine` with discount factors `1, 1/2`: the flow
of 100 is worth `100 * 1 / (1/2) * 10 = 2000`. -/
theorem singlePathValues_two_step_rebased_witness :
    ∃ e1 values1,
      (twoStepEngine (curveOf [1, 1 / 2]) [curveOf [1, 1 / 2], curveOf [1, 1 / 2]]).singlePathValues
        2 [0] = Except.ok (e1, values1) ∧ values1[0]? = some 2000 := by
  obtain ⟨e1, values1, hrun, hval⟩ := singlePathValues_two_step_rebased
    (twoStepEngine (curveOf [1, 1 / 2]) [curveOf [1, 1 / 2], curveOf [1, 1 / 2]]) [0] 2 0 0 1 100
    (by decide) (by decide)
    ⟨by decide, fun k hk => by have : k < 1 := by omega
                               interval_cases k; decide, by decide⟩
    (fun k hk => by interval_cases k <;> decide)
    (by decide) (by decide) (by decide) rfl (by decide) (by decide) rfl (by decide) (by decide)
    (by simp [AccountingEngine.stateAt, AccountingEngine.collaboratorsAt,
      AccountingEngine.callCollaborators, AccountingEngine.entryShared, twoStepEngine,
      newAccountingEngine, replayEvolver, curveOf])
  refine ⟨e1, values1, hrun, ?_⟩
  rw [hval]
  simp [AccountingEngine.flowAt, AccountingEngine.flowsAt, AccountingEngine.stateAt,
    AccountingEngine.collaboratorsAt, AccountingEngine.callCollaborators,
    AccountingEngine.entryShared, twoStepEngine, newAccountingEngine, replayEvolver,
    replayProduct, overwriteFront, Discounter.numeraireBonds, curveOf]
  norm_num

/-- C4, as the specification has it, fails: on `twoStepEngine` with discount factors `1, 1/2`
everywhere (numeraire 0 at step 1, numeraire 1 at step 2, one flow of 100 at step 2) the run
returns 2000, and the direct valuation `100 * numeraireBonds(state_2, 1) * 10` is 1000. -/
theorem rebase_enters_later_flow :
    ∃ v, valuesOf
        ((twoStepEngine (curveOf [1, 1 / 2])
          [curveOf [1, 1 / 2], curveOf [1, 1 / 2]]).singlePathValues 2 [0]) = some [v] ∧
      v = 2000 ∧
      v ≠ 100 * ((twoStepEngine (curveOf [1, 1 / 2])
            [curveOf [1, 1 / 2], curveOf [1, 1 / 2]]).discounters_.getD 1 {}).numeraireBonds
          ((twoStepEngine (curveOf [1, 1 / 2])
            [curveOf [1, 1 / 2], curveOf [1, 1 / 2]]).stateAt
            (twoStepEngine (curveOf [1, 1 / 2])
              [curveOf [1, 1 / 2], curveOf [1, 1 / 2]]).entryShared 1) 1
        * (twoStepEngine (curveOf [1, 1 / 2])
            [curveOf [1, 1 / 2], curveOf [1, 1 / 2]]).initialNumeraireValue_ := by
  refine ⟨2000, ?_, rfl, ?_⟩
  · simp [valuesOf, AccountingEngine.singlePathValues, AccountingEngine.pathLoop,
      AccountingEngine.iteration, AccountingEngine.entryState, AccountingEngine.entryShared,
      AccountingEngine.callCollaborators, twoStepEngine, newAccountingEngine, replayEvolver,
      replayProduct, overwriteFront, readAt, addProducts, addCashFlows, writeValues,
      Discounter.numeraireBonds, curveOf]
    norm_num
  · simp [twoStepEngine, newAccountingEngine, Discounter.numeraireBonds]
    norm_num

/-- C6: on a single-step path, a product that generates exactly one flow is worth
`amount * numeraireBonds(state, numeraire) * initialNumeraireValue`, with the discounter of the
flow's time index and the numeraire of the step. -/
theorem singlePathValues_single_flow {σ π : Type} (e : AccountingEngine σ π) (values : List ℚ)
    (fuel i : ℕ) (hheld : e.numerairesHeld_.length = e.numberProducts_)
    (hvalues : e.numberProducts_ ≤ values.length)
    (hdone : e.CompletesAt e.entryShared 1)
    (hin : e.InRangeAt e.entryShared 0)
    (hone : e.countAt e.entryShared 0 i = 1)
    (hfuel : 1 ≤ fuel) (hi : i < e.numberProducts_) :
    ∃ e1 values1, e.singlePathValues fuel values = Except.ok (e1, values1) ∧
      values1[i]? = some ((e.flowAt e.entryShared 0 i 0).amount
        * (e.discounters_.getD (e.flowAt e.entryShared 0 i 0).timeIndex {}).numeraireBonds
            (e.stateAt e.entryShared 0) (e.numeraireAt e.entryShared 0)
        * e.initialNumeraireValue_) := by
  obtain ⟨held1, values1, hrun, _, hlen, _, hval, _⟩ :=
    singlePathValues_spec e values 1 fuel hheld hvalues hdone
      (fun k hk => by have : k = 0 := by omega
                      subst this; exact hin) hfuel
  refine ⟨_, values1, hrun, getElem?_of_getD values1 i _ (by omega) ?_⟩
  rw [hval i hi]
  simp only [AccountingEngine.heldAfter, Finset.sum_range_one, hone, principalFrom_zero, div_one,
    AccountingEngine.bondsAt]

/-- C7: on a path that completes at step `n` with every index in range, a product whose flow
count is zero at every step is worth exactly zero, whatever the other products generate,
whatever the numeraires and rebase factors are and whatever `numerairesHeld_` held before. -/
theorem singlePathValues_no_flow {σ π : Type} (e : AccountingEngine σ π) (values : List ℚ)
    (n fuel i : ℕ) (hheld : e.numerairesHeld_.length = e.numberProducts_)
    (hvalues : e.numberProducts_ ≤ values.length)
    (hdone : e.CompletesAt e.entryShared n)
    (hin : ∀ k, k < n → e.InRangeAt e.entryShared k)
    (hnone : ∀ k, k < n → e.countAt e.entryShared k i = 0)
    (hfuel : n ≤ fuel) (hi : i < e.numberProducts_) :
    ∃ e1 values1, e.singlePathValues fuel values = Except.ok (e1, values1) ∧
      values1[i]? = some 0 := by
  obtain ⟨held1, values1, hrun, _, hlen, _, hval, _⟩ :=
    singlePathValues_spec e values n fuel hheld hvalues hdone hin hfuel
  refine ⟨_, values1, hrun, getElem?_of_getD values1 i _ (by omega) ?_⟩
  rw [hval i hi]
  have hzero : e.heldAfter e.entryShared n i = 0 := by
    apply Finset.sum_eq_zero
    intro k hk
    rw [hnone k (Finset.mem_range.mp hk)]
    simp
  rw [hzero, zero_mul]

/-- Witness of C6 on `singleStepEngine`: the single flow of 7 is worth `7 * 1 * 10`. -/
theorem singlePathValues_single_flow_witness :
    ∃ e1 values1, singleStepEngine.singlePathValues 1 [0, 0] = Except.ok (e1, values1) ∧
      values1[0]? = some 70 := by
  obtain ⟨e1, values1, hrun, hval⟩ := singlePathValues_single_flow singleStepEngine [0, 0] 1 0
    (by decide) (by decide) ⟨by decide, fun k hk => by omega, by decide⟩ (by decide) (by decide)
    (by decide) (by decide)
  refine ⟨e1, values1, hrun, ?_⟩
  rw [hval]
  simp [AccountingEngine.flowAt, AccountingEngine.flowsAt, AccountingEngine.collaboratorsAt,
    AccountingEngine.callCollaborators, AccountingEngine.entryShared, singleStepEngine,
    newAccountingEngine, replayEvolver, replayProduct, overwriteFront,
    Discounter.numeraireBonds]
  norm_num

/-- Witness of C7 on `threeStepEngine` entered with `numerairesHeld_ = [5, 6, 7]`: product 2
generates nothing and is worth zero. -/
theorem singlePathValues_no_flow_witness :
    ∃ e1 values1,
      ({ threeStepEngine with numerairesHeld_ := [5, 6, 7] }).singlePathValues 3 [1, 1, 1]
        = Except.ok (e1, values1) ∧ values1[2]? = some 0 :=
  singlePathValues_no_flow { threeStepEngine with numerairesHeld_ := [5, 6, 7] } [1, 1, 1] 3 3 2
    (by decide) (by decide)
    ⟨by decide, fun k hk => by have : k < 2 := by omega
                               interval_cases k <;> decide, by decide⟩
    (fun k hk => by interval_cases k <;> decide)
    (fun k hk => by interval_cases k <;> decide)
    (by decide) (by decide)

/-- C5: on `scenarioEngine` (one product, three steps under the numeraires `[0, 0, 1]`, 100
paid at step 2 and 50 at step 3) the second rebase divides by `discountRatio(1, 0)` of the
member `curveState_`, which is `1/2`, where the curve state of step 2 has `1/3`: the run
returns 2000 and the specified value `(100 * b0 + 50 * b1 / discountRatio(1, 0)) * 10` on the
curve state of step 2 is 2500. -/
theorem scenario_rebase_reads_member :
    scenarioEngine.evolution_.numeraires = [0, 0, 1] ∧
    scenarioEngine.CompletesAt scenarioEngine.entryShared 3 ∧
    scenarioEngine.curveState_.discountRatio 1 0 = 1 / 2 ∧
    (scenarioEngine.stateAt scenarioEngine.entryShared 1).discountRatio 1 0 = 1 / 3 ∧
    valuesOf (scenarioEngine.singlePathValues 3 [0]) = some [2000] ∧
    (100 * (scenarioEngine.discounters_.getD
          (scenarioEngine.flowAt scenarioEngine.entryShared 1 0 0).timeIndex {}).numeraireBonds
          (scenarioEngine.stateAt scenarioEngine.entryShared 1) 0
      + 50 * (scenarioEngine.discounters_.getD
          (scenarioEngine.flowAt scenarioEngine.entryShared 2 0 0).timeIndex {}).numeraireBonds
          (scenarioEngine.stateAt scenarioEngine.entryShared 2) 1
        / (scenarioEngine.stateAt scenarioEngine.entryShared 1).discountRatio 1 0)
      * scenarioEngine.initialNumeraireValue_ = 2500 := by
  refine ⟨rfl, ⟨by decide, fun k hk => by have : k < 2 := by omega
                                          interval_cases k <;> decide, by decide⟩,
    ?_, ?_, ?_, ?_⟩
  · simp [scenarioEngine, newAccountingEngine, curveOf]
  · simp [AccountingEngine.stateAt, AccountingEngine.collaboratorsAt,
      AccountingEngine.callCollaborators, AccountingEngine.entryShared, scenarioEngine,
      newAccountingEngine, replayEvolver, curveOf]
  · simp [valuesOf, AccountingEngine.singlePathValues, AccountingEngine.pathLoop,
      AccountingEngine.iteration, AccountingEngine.entryState, AccountingEngine.entryShared,
      AccountingEngine.callCollaborators, scenarioEngine, newAccountingEngine, replayEvolver,
      replayProduct, overwriteFront, readAt, addProducts, addCashFlows, writeValues,
      Discounter.numeraireBonds, curveOf]
    norm_num
  · simp [AccountingEngine.stateAt, AccountingEngine.collaboratorsAt,
      AccountingEngine.callCollaborators, AccountingEngine.entryShared, scenarioEngine,
      newAccountingEngine, replayEvolver, Discounter.numeraireBonds, curveOf]
    norm_num

/-! ## Repeated runs -/

theorem rebaseAt_congr {σ π : Type} (e e1 : AccountingEngine σ π) (c c1 : Collaborators σ π)
    (k : Nat) (hnum : e.evolution_.numeraires = e1.evolution_.numeraires)
    (hcurve : e.curveState_ = e1.curveState_) (hstep : e.stepAt c k = e1.stepAt c1 k) :
    e.rebaseAt c k = e1.rebaseAt c1 k := by
  simp only [AccountingEngine.rebaseAt, AccountingEngine.nextNumeraireAt,
    AccountingEngine.numeraireAt, hnum, hcurve, hstep]

theorem heldAfter_congr {σ π : Type} (e e1 : AccountingEngine σ π) (c c1 : Collaborators σ π)
    (n i : Nat) (hm : e.SameMembers e1) (hp : e.SamePath e1 c c1 n)
    (hi : i < e.numberProducts_) : e.heldAfter c n i = e1.heldAfter c1 n i := by
  obtain ⟨hnum, _, _, hcurve, hdisc⟩ := hm
  apply Finset.sum_congr rfl
  intro k hk
  have hk1 : k < n := Finset.mem_range.mp hk
  obtain ⟨_, hstate, hstep, hprod⟩ := hp k hk1
  obtain ⟨hcount, hflow⟩ := hprod i hi
  rw [← hcount]
  apply Finset.sum_congr rfl
  intro j hj
  have hprincipal : e.principalFrom c 1 k = e1.principalFrom c1 1 k := by
    simp only [AccountingEngine.principalFrom]
    congr 1
    apply Finset.prod_congr rfl
    intro l hl
    exact rebaseAt_congr e e1 c c1 l hnum hcurve
      (hp l (lt_trans (Finset.mem_range.mp hl) hk1)).2.2.1
  simp only [AccountingEngine.bondsAt, AccountingEngine.numeraireAt,
    hflow j (Finset.mem_range.mp hj), hstate, hstep, hnum, hdisc, hprincipal]

theorem eq_of_getD_eq (xs ys : List ℚ) (hlen : xs.length = ys.length)
    (h : ∀ i, i < xs.length → xs.getD i 0 = ys.getD i 0) : xs = ys := by
  apply List.ext_getElem hlen
  intro i h1 h2
  have := h i h1
  simpa [List.getD, List.getElem?_eq_getElem h1, List.getElem?_eq_getElem h2] using this

theorem singlePathValues_same_path {σ π : Type} (e e1 : AccountingEngine σ π)
    (values other : List ℚ) (n fuel : ℕ) (hm : e.SameMembers e1)
    (hheld : e.numerairesHeld_.length = e.numberProducts_)
    (hheld1 : e1.numerairesHeld_.length = e1.numberProducts_)
    (hvalues : values.length = e.numberProducts_) (hother : other.length = e.numberProducts_)
    (hdone : e.CompletesAt e.entryShared n)
    (hin : ∀ k, k < n → e.InRangeAt e.entryShared k)
    (hp : e.SamePath e1 e.entryShared e1.entryShared n)
    (hin1 : ∀ k, k < n → e1.InRangeAt e1.entryShared k) (hfuel : n ≤ fuel) :
    ∃ held held1 values1,
      e.singlePathValues fuel values = Except.ok (e.afterPath n held, values1) ∧
      e1.singlePathValues fuel other = Except.ok (e1.afterPath n held1, values1) := by
  have hN : e.numberProducts_ = e1.numberProducts_ := hm.2.2.1
  have hdone1 : e1.CompletesAt e1.entryShared n := by
    obtain ⟨h1, h2, h3⟩ := hdone
    refine ⟨h1, fun k hk => ?_, ?_⟩
    · rw [← (hp k (by omega)).1]; exact h2 k hk
    · rw [← (hp (n - 1) (by omega)).1]; exact h3
  obtain ⟨held, values1, hrun, _, hlen, _, hval, _⟩ :=
    singlePathValues_spec e values n fuel hheld (le_of_eq hvalues.symm) hdone hin hfuel
  obtain ⟨held1, values2, hrun1, _, hlen1, _, hval1, _⟩ :=
    singlePathValues_spec e1 other n fuel hheld1 (by omega) hdone1 hin1 hfuel
  have heq : values1 = values2 := by
    apply eq_of_getD_eq _ _ (by omega)
    intro i hi
    rw [hval i (by omega), hval1 i (by omega), heldAfter_congr e e1 _ _ n i hm hp (by omega),
      hm.2.1]
  exact ⟨held, held1, values1, hrun, heq ▸ hrun1⟩

/-- C9, as the code has it: a run on a used engine and the run of the same path on an engine
freshly constructed over the same collaborators return and write identical value vectors,
provided the collaborators show both engines the same schedule, that is provided
`nextTimeStep` writes every flow count and every flow below its count whatever the buffers
held.  The engine itself clears neither buffer. -/
theorem singlePathValues_isolated {σ π : Type} (newCurveState : List ℚ → CurveState)
    (e : AccountingEngine σ π) (values other : List ℚ) (n fuel : ℕ)
    (hbuilt : e.SameMembers (e.rebuilt newCurveState))
    (hheld : e.numerairesHeld_.length = e.numberProducts_)
    (hvalues : values.length = e.numberProducts_) (hother : other.length = e.numberProducts_)
    (hdone : e.CompletesAt e.entryShared n)
    (hin : ∀ k, k < n → e.InRangeAt e.entryShared k)
    (hpattern : e.SamePath (e.rebuilt newCurveState) e.entryShared
      (e.rebuilt newCurveState).entryShared n)
    (hin2 : ∀ k, k < n →
      (e.rebuilt newCurveState).InRangeAt (e.rebuilt newCurveState).entryShared k)
    (hfuel : n ≤ fuel) :
    ∃ e1 e2 values1, e.singlePathValues fuel values = Except.ok (e1, values1) ∧
      (e.rebuilt newCurveState).singlePathValues fuel other = Except.ok (e2, values1) := by
  obtain ⟨held, held2, values1, hrun, hrun2⟩ :=
    singlePathValues_same_path e (e.rebuilt newCurveState) values other n fuel hbuilt hheld
      (by simp [AccountingEngine.rebuilt, newAccountingEngine]) hvalues hother hdone hin
      hpattern hin2 hfuel
  exact ⟨_, _, values1, hrun, hrun2⟩

/-- Witness of the isolation on `usedThreeStepEngine`, whose buffers hold stale counts and
flows: the used engine and the rebuilt engine write the same values. -/
theorem singlePathValues_isolated_witness :
    ∃ e1 e2 values1,
      usedThreeStepEngine.singlePathValues 3 [0, 0, 0] = Except.ok (e1, values1) ∧
      (usedThreeStepEngine.rebuilt (fun _ => curveOf [1, 1 / 2, 1 / 4])).singlePathValues 3
        [1, 1, 1] = Except.ok (e2, values1) :=
  singlePathValues_isolated (fun _ => curveOf [1, 1 / 2, 1 / 4]) usedThreeStepEngine [0, 0, 0]
    [1, 1, 1] 3 3 ⟨rfl, rfl, rfl, rfl, rfl⟩ (by decide) (by decide) (by decide)
    ⟨by decide, fun k hk => by have : k < 2 := by omega
                               interval_cases k <;> decide, by decide⟩
    (fun k hk => by interval_cases k <;> decide)
    (fun k hk => by interval_cases k <;> exact ⟨by decide, rfl, by decide, by decide⟩)
    (fun k hk => by interval_cases k <;> decide)
    (by decide)

/-- C9, as the specification has it, fails: `lazyProduct` pays product 0 a flow of 7 on the
first path and generates nothing on the second, leaving the count unwritten.  The second call
on the used engine reads the stale count and the stale flow and writes 70; the same path on a
freshly constructed engine writes 0. -/
theorem stale_count_enters_second_run :
    valuesOf (lazyEngine.secondRun 1 [0] [0]) = some [70] ∧
    valuesOf (lazyEngine.secondRunRebuilt (fun _ => curveOf [1]) 1 [0] [0]) = some [0] := by
  constructor
  · simp [valuesOf, AccountingEngine.secondRun, AccountingEngine.singlePathValues,
      AccountingEngine.pathLoop, AccountingEngine.iteration, AccountingEngine.entryState,
      AccountingEngine.entryShared, AccountingEngine.callCollaborators, lazyEngine, lazyProduct,
      newAccountingEngine, replayEvolver, readAt, addProducts, addCashFlows, writeValues,
      Discounter.numeraireBonds]
    norm_num
  · simp [valuesOf, AccountingEngine.secondRunRebuilt, AccountingEngine.rebuilt,
      AccountingEngine.singlePathValues, AccountingEngine.pathLoop, AccountingEngine.iteration,
      AccountingEngine.entryState, AccountingEngine.entryShared,
      AccountingEngine.callCollaborators, lazyEngine, lazyProduct, newAccountingEngine,
      replayEvolver, readAt, addProducts, addCashFlows, writeValues, Discounter.numeraireBonds]

/-! ## An unchanged numeraire -/

theorem getD_of_readAt {α : Type} (xs : List α) (i : ℕ) (d x : α)
    (h : readAt xs i = Except.ok x) : xs.getD i d = x := by
  unfold readAt at h
  cases hx : xs[i]? with
  | none => simp [hx] at h
  | some y =>
    simp only [hx, Except.ok.injEq] at h
    simp [List.getD, hx, h]

theorem iteration_rebase {σ π : Type} (e : AccountingEngine σ π) (s s1 : LoopState σ π)
    (h : e.iteration s = Except.ok (false, s1)) :
    s1.principalInNumerairePortfolio
      = s.principalInNumerairePortfolio * e.rebaseAt s.shared 0 := by
  unfold AccountingEngine.iteration at h
  simp only at h
  cases hnum : readAt e.evolution_.numeraires
      (e.evolver_.currentStep (e.callCollaborators s.shared).2.evolverObject) with
  | error f => simp [hnum] at h
  | ok numeraire =>
    simp only [hnum] at h
    cases hadd : addProducts e.discounters_
        (e.evolver_.currentState (e.callCollaborators s.shared).2.evolverObject) numeraire
        s.principalInNumerairePortfolio (e.callCollaborators s.shared).2.numberCashFlowsThisStep_
        (e.callCollaborators s.shared).2.cashFlowsGenerated_ e.numberProducts_
        s.numerairesHeld_ with
    | error f => simp [hadd] at h
    | ok held =>
      simp only [hadd] at h
      by_cases hd : (e.callCollaborators s.shared).1 = true
      · simp [hd] at h
      · simp only [hd] at h
        cases hnext : readAt e.evolution_.numeraires
            (e.evolver_.currentStep (e.callCollaborators s.shared).2.evolverObject + 1) with
        | error f => simp [hnext] at h
        | ok nextNumeraire =>
          simp only [hnext] at h
          have h1 := getD_of_readAt _ _ 0 _ hnum
          have h2 := getD_of_readAt _ _ 0 _ hnext
          have hs : s1 = _ := ((Prod.mk.inj (Except.ok.inj h)).2).symm
          rw [hs]
          simp only [AccountingEngine.rebaseAt, AccountingEngine.nextNumeraireAt,
            AccountingEngine.numeraireAt, AccountingEngine.stepAt,
            AccountingEngine.collaboratorsAt, h1, h2]

theorem principalFrom_constant {σ π : Type} (e : AccountingEngine σ π) (c : Collaborators σ π)
    (n : Nat) (hdiag : ∀ m, e.curveState_.discountRatio m m = 1)
    (hconst : ∀ k, k + 1 < n → e.nextNumeraireAt c k = e.numeraireAt c k) :
    ∀ k, k < n → e.principalFrom c 1 k = 1 := by
  intro k
  induction k with
  | zero => intro _; exact principalFrom_zero e c 1
  | succ k ih =>
    intro hk
    rw [principalFrom_succ, ih (by omega), one_mul]
    simp only [AccountingEngine.rebaseAt, hconst k hk, hdiag]

/-- C10: assuming `discountRatio(m, m) = 1` for every index `m` (of every curve state, used
here for the one the rebase reads), at every step boundary whose next numeraire equals the
numeraire of the step the rebase factor is exactly one and the iteration leaves
`principalInNumerairePortfolio` unchanged, whatever the loop state and the rest of the path;
and on a path whose numeraire is unchanged across every
step boundary the loop ends with principal one and every product is worth
`initialNumeraireValue` times the plain sum of `amount * numeraireBonds`. -/
theorem rebase_unchanged_numeraire {σ π : Type} (e : AccountingEngine σ π)
    (hdiag : ∀ m, e.curveState_.discountRatio m m = 1) :
    (∀ (c : Collaborators σ π) (k : ℕ), e.nextNumeraireAt c k = e.numeraireAt c k →
      e.rebaseAt c k = 1 ∧ ∀ p, e.principalFrom c p (k + 1) = e.principalFrom c p k) ∧
    (∀ s s1, e.iteration s = Except.ok (false, s1) →
      e.nextNumeraireAt s.shared 0 = e.numeraireAt s.shared 0 →
      s1.principalInNumerairePortfolio = s.principalInNumerairePortfolio) ∧
    ∀ (values : List ℚ) (n fuel i : ℕ), e.numerairesHeld_.length = e.numberProducts_ →
      e.numberProducts_ ≤ values.length → e.CompletesAt e.entryShared n →
      (∀ k, k < n → e.InRangeAt e.entryShared k) →
      (∀ k, k + 1 < n → e.nextNumeraireAt e.entryShared k = e.numeraireAt e.entryShared k) →
      n ≤ fuel → i < e.numberProducts_ →
      (∃ s, e.pathLoop fuel e.entryState = Except.ok s ∧ s.principalInNumerairePortfolio = 1) ∧
      ∃ e1 values1, e.singlePathValues fuel values = Except.ok (e1, values1) ∧
        values1[i]? = some (e.initialNumeraireValue_ *
          ∑ k ∈ Finset.range n, ∑ j ∈ Finset.range (e.countAt e.entryShared k i),
            (e.flowAt e.entryShared k i j).amount
              * (e.discounters_.getD (e.flowAt e.entryShared k i j).timeIndex {}).numeraireBonds
                  (e.stateAt e.entryShared k) (e.numeraireAt e.entryShared k)) := by
  refine ⟨?_, ?_, ?_⟩
  · intro c k hsame
    have hone : e.rebaseAt c k = 1 := by
      simp only [AccountingEngine.rebaseAt, hsame, hdiag]
    exact ⟨hone, fun p => by rw [principalFrom_succ, hone, mul_one]⟩
  · intro s s1 hit hsame
    rw [iteration_rebase e s s1 hit]
    simp only [AccountingEngine.rebaseAt, hsame, hdiag, mul_one]
  · intro values n fuel i hheld hvalues hdone hin hconst hfuel hi
    have hone := principalFrom_constant e e.entryShared n hdiag hconst
    constructor
    · obtain ⟨hn, hnot, hlast⟩ := hdone
      obtain ⟨m, rfl⟩ : ∃ m, n = m + 1 := ⟨n - 1, by omega⟩
      obtain ⟨s, hrun, _, hpr, _, _⟩ := pathLoop_spec e m e.entryShared
        (e.evolver_.startNewPath e.evolverObject).1 1
        (List.replicate e.numerairesHeld_.length 0) fuel (by simpa using hheld)
        (fun k hk => hnot k (by omega)) (by simpa using hlast) (fun k hk => hin k (by omega))
        (by omega)
      exact ⟨s, hrun, by rw [hpr]; exact hone m (by omega)⟩
    · obtain ⟨held1, values1, hrun, _, hlen, _, hval, _⟩ :=
        singlePathValues_spec e values n fuel hheld hvalues hdone hin hfuel
      refine ⟨_, values1, hrun, getElem?_of_getD values1 i _ (by omega) ?_⟩
      rw [hval i hi, mul_comm]
      congr 1
      apply Finset.sum_congr rfl
      intro k hk
      apply Finset.sum_congr rfl
      intro j _
      rw [hone k (Finset.mem_range.mp hk), div_one]
      rfl

theorem curveOf_diagonal (discountFactors : List ℚ) (h : ∀ x, x ∈ discountFactors → x ≠ 0)
    (m : ℕ) : (curveOf discountFactors).discountRatio m m = 1 := by
  simp only [curveOf]
  apply div_self
  by_cases hm : m < discountFactors.length
  · have hx : discountFactors.getD m 1 = discountFactors[m] := by
      simp [List.getD, List.getElem?_eq_getElem hm]
    rw [hx]
    exact h _ (List.getElem_mem hm)
  · have hx : discountFactors.getD m 1 = 1 := by
      simp [List.getD, List.getElem?_eq_none (Nat.le_of_not_lt hm)]
    rw [hx]
    exact one_ne_zero

/-- Witness of C10.  On `scenarioEngine`, whose numeraires are `[0, 0, 1]`, the first step
boundary keeps the numeraire and the first iteration leaves the principal at one, although the
second boundary changes the numeraire.  On `constantNumeraireEngine` the principal ends at one
and the product is worth `10 * (8 + 50) = 580`. -/
theorem rebase_unchanged_numeraire_witness :
    (scenarioEngine.rebaseAt scenarioEngine.entryShared 0 = 1 ∧
      ¬ (scenarioEngine.nextNumeraireAt scenarioEngine.entryShared 1
          = scenarioEngine.numeraireAt scenarioEngine.entryShared 1) ∧
      ∃ s1, scenarioEngine.iteration scenarioEngine.entryState = Except.ok (false, s1) ∧
        s1.principalInNumerairePortfolio = 1) ∧
    (∃ s, constantNumeraireEngine.pathLoop 3 constantNumeraireEngine.entryState = Except.ok s ∧
      s.principalInNumerairePortfolio = 1) ∧
    ∃ e1 values1, constantNumeraireEngine.singlePathValues 3 [0] = Except.ok (e1, values1) ∧
      values1[0]? = some 580 := by
  have hscenario := rebase_unchanged_numeraire scenarioEngine
    (curveOf_diagonal [1, 1 / 2] (by simp))
  have hconstant := rebase_unchanged_numeraire constantNumeraireEngine
    (curveOf_diagonal [1, 1 / 2, 1 / 4] (by simp))
  obtain ⟨held1, hit, _, _⟩ := iteration_spec scenarioEngine scenarioEngine.entryShared 1 1
    (List.replicate scenarioEngine.numerairesHeld_.length 0) (by decide) (by decide)
  have hfalse : scenarioEngine.doneAt scenarioEngine.entryShared 0 = false := by decide
  rw [hfalse] at hit
  obtain ⟨hloop, e1, values1, hrun, hval⟩ := hconstant.2.2 [0] 3 3 0 (by decide) (by decide)
    ⟨by decide, fun k hk => by have : k < 2 := by omega
                               interval_cases k <;> decide, by decide⟩
    (fun k hk => by interval_cases k <;> decide)
    (fun k hk => by have : k < 2 := by omega
                    interval_cases k <;> decide)
    (by decide) (by decide)
  refine ⟨⟨(hscenario.1 scenarioEngine.entryShared 0 (by decide)).1, by decide, _, hit,
    (hscenario.2.1 _ _ hit (by decide)).trans rfl⟩, hloop, e1, values1, hrun, ?_⟩
  rw [hval]
  simp [Finset.sum_range_succ, AccountingEngine.countAt, AccountingEngine.flowAt,
    AccountingEngine.countsAt, AccountingEngine.flowsAt, AccountingEngine.collaboratorsAt,
    AccountingEngine.callCollaborators, AccountingEngine.entryShared, constantNumeraireEngine,
    newAccountingEngine, replayEvolver, replayProduct, overwriteFront,
    Discounter.numeraireBonds]
  norm_num

/-! ## What a returning run has read -/

theorem lt_of_readAt {α : Type} (xs : List α) (i : ℕ) (x : α)
    (h : readAt xs i = Except.ok x) : i < xs.length := by
  unfold readAt at h
  cases hx : xs[i]? with
  | none => simp [hx] at h
  | some y =>
    by_contra hlt
    rw [List.getElem?_eq_none (Nat.le_of_not_lt hlt)] at hx
    cases hx

theorem addCashFlows_returns (discounters : List Discounter) (curveState : CurveState)
    (numeraire : ℕ) (principal : ℚ) (cashflows : List CashFlow) (i : ℕ) (n : Nat) :
    ∀ (held held1 : List ℚ),
      addCashFlows discounters curveState numeraire principal cashflows i n held
        = Except.ok held1 →
      held1.length = held.length ∧ (0 < n → i < held.length) ∧
      ∀ j, j < n → j < cashflows.length := by
  induction n with
  | zero =>
    intro held held1 h
    simp only [addCashFlows, Except.ok.injEq] at h
    subst h
    exact ⟨rfl, fun h0 => absurd h0 (lt_irrefl 0), fun j hj => absurd hj (Nat.not_lt_zero j)⟩
  | succ n ih =>
    intro held held1 h
    simp only [addCashFlows] at h
    cases hrec : addCashFlows discounters curveState numeraire principal cashflows i n held with
    | error f => simp [hrec] at h
    | ok held0 =>
      simp only [hrec] at h
      obtain ⟨hlen0, _, hj0⟩ := ih held held0 hrec
      cases hcf : readAt cashflows n with
      | error f => simp [hcf] at h
      | ok cf =>
        simp only [hcf] at h
        cases hh : readAt held0 i with
        | error f => simp [hh] at h
        | ok v =>
          simp only [hh, Except.ok.injEq] at h
          subst h
          have hi : i < held.length := hlen0 ▸ lt_of_readAt held0 i v hh
          refine ⟨by simpa using hlen0, fun _ => hi, fun j hj => ?_⟩
          by_cases hjn : j = n
          · subst hjn
            exact lt_of_readAt cashflows j cf hcf
          · exact hj0 j (by omega)

theorem addProducts_returns (discounters : List Discounter) (curveState : CurveState)
    (numeraire : ℕ) (principal : ℚ) (counts : List ℕ) (flows : List (List CashFlow))
    (n : Nat) :
    ∀ (held held1 : List ℚ),
      addProducts discounters curveState numeraire principal counts flows n held
        = Except.ok held1 →
      held1.length = held.length ∧
      ∀ i, i < n → i < counts.length ∧ i < flows.length ∧
        (0 < counts.getD i 0 → i < held.length) ∧
        ∀ j, j < counts.getD i 0 → j < (flows.getD i []).length := by
  induction n with
  | zero =>
    intro held held1 h
    simp only [addProducts, Except.ok.injEq] at h
    subst h
    exact ⟨rfl, fun i hi => absurd hi (Nat.not_lt_zero i)⟩
  | succ n ih =>
    intro held held1 h
    simp only [addProducts] at h
    cases hrec : addProducts discounters curveState numeraire principal counts flows n held with
    | error f => simp [hrec] at h
    | ok held0 =>
      simp only [hrec] at h
      obtain ⟨hlen0, hi0⟩ := ih held held0 hrec
      cases hfl : readAt flows n with
      | error f => simp [hfl] at h
      | ok cashflows =>
        simp only [hfl] at h
        cases hc : readAt counts n with
        | error f => simp [hc] at h
        | ok m =>
          simp only [hc] at h
          have hfl1 := getD_of_readAt flows n [] cashflows hfl
          have hc1 := getD_of_readAt counts n 0 m hc
          obtain ⟨hlen1, hpos, hj⟩ := addCashFlows_returns discounters curveState numeraire
            principal cashflows n m held0 held1 h
          refine ⟨hlen1.trans hlen0, fun i hi => ?_⟩
          by_cases hin : i = n
          · subst hin
            rw [hfl1, hc1]
            exact ⟨lt_of_readAt counts i m hc, lt_of_readAt flows i cashflows hfl,
              fun hm => hlen0 ▸ hpos hm, hj⟩
          · exact hi0 i (by omega)

theorem iteration_returns {σ π : Type} (e : AccountingEngine σ π) (s s1 : LoopState σ π)
    (d : Bool) (h : e.iteration s = Except.ok (d, s1)) :
    d = e.doneAt s.shared 0 ∧ e.LoadsInRangeAt s.shared 0 ∧
    s1.shared = (e.callCollaborators s.shared).2 ∧
    s1.weight = s.weight * (e.evolver_.advanceStep s.shared.evolverObject).1 ∧
    s1.principalInNumerairePortfolio
      = (if d = true then s.principalInNumerairePortfolio
          else s.principalInNumerairePortfolio * e.rebaseAt s.shared 0) ∧
    s1.numerairesHeld_.length = s.numerairesHeld_.length ∧
    addProducts e.discounters_ (e.stateAt s.shared 0) (e.numeraireAt s.shared 0)
      s.principalInNumerairePortfolio (e.countsAt s.shared 0) (e.flowsAt s.shared 0)
      e.numberProducts_ s.numerairesHeld_ = Except.ok s1.numerairesHeld_ := by
  unfold AccountingEngine.iteration at h
  simp only at h
  cases hnum : readAt e.evolution_.numeraires
      (e.evolver_.currentStep (e.callCollaborators s.shared).2.evolverObject) with
  | error f => simp [hnum] at h
  | ok numeraire =>
    simp only [hnum] at h
    have h1 := getD_of_readAt _ _ 0 _ hnum
    have hstep := lt_of_readAt _ _ _ hnum
    cases hadd : addProducts e.discounters_
        (e.evolver_.currentState (e.callCollaborators s.shared).2.evolverObject) numeraire
        s.principalInNumerairePortfolio (e.callCollaborators s.shared).2.numberCashFlowsThisStep_
        (e.callCollaborators s.shared).2.cashFlowsGenerated_ e.numberProducts_
        s.numerairesHeld_ with
    | error f => simp [hadd] at h
    | ok held =>
      simp only [hadd] at h
      obtain ⟨hlen, hprod⟩ := addProducts_returns _ _ _ _ _ _ _ _ _ hadd
      have hbuf : ∀ i, i < e.numberProducts_ →
          i < (e.countsAt s.shared 0).length ∧ i < (e.flowsAt s.shared 0).length ∧
          ∀ j, j < e.countAt s.shared 0 i →
            j < ((e.flowsAt s.shared 0).getD i []).length :=
        fun i hi => ⟨(hprod i hi).1, (hprod i hi).2.1, (hprod i hi).2.2.2⟩
      rw [← h1] at hadd
      by_cases hd : (e.callCollaborators s.shared).1 = true
      · simp only [hd, if_true, Except.ok.injEq, Prod.mk.injEq] at h
        obtain ⟨hd1, hs⟩ := h
        subst hs
        subst hd1
        have hguard : e.doneAt s.shared 0 = false →
            e.stepAt s.shared 0 + 1 < e.evolution_.numeraires.length := by
          intro hf
          have hf1 : (e.callCollaborators s.shared).1 = false := hf
          rw [hd] at hf1
          cases hf1
        exact ⟨hd.symm, ⟨hstep, hguard, hbuf⟩, rfl, rfl, by simp, hlen, hadd⟩
      · have hd0 : (e.callCollaborators s.shared).1 = false := by simpa using hd
        simp only [hd0] at h
        cases hnext : readAt e.evolution_.numeraires
            (e.evolver_.currentStep (e.callCollaborators s.shared).2.evolverObject + 1) with
        | error f => simp [hnext] at h
        | ok nextNumeraire =>
          simp only [hnext] at h
          have h2 := getD_of_readAt _ _ 0 _ hnext
          have hstep1 := lt_of_readAt _ _ _ hnext
          simp only [Bool.false_eq_true, if_false, Except.ok.injEq, Prod.mk.injEq] at h
          obtain ⟨hd1, hs⟩ := h
          subst hs
          subst hd1
          refine ⟨hd0.symm, ⟨hstep, fun _ => hstep1, hbuf⟩, rfl, rfl, ?_, hlen, hadd⟩
          simp only [Bool.false_eq_true, if_false, AccountingEngine.rebaseAt,
            AccountingEngine.nextNumeraireAt, AccountingEngine.numeraireAt,
            AccountingEngine.stepAt, AccountingEngine.collaboratorsAt, h1, h2]

theorem pathLoop_returns {σ π : Type} (e : AccountingEngine σ π) (fuel : Nat) :
    ∀ (s s1 : LoopState σ π), e.pathLoop fuel s = Except.ok s1 →
      ∃ m, m < fuel ∧ (∀ k, k < m → e.doneAt s.shared k = false) ∧
        e.doneAt s.shared m = true ∧ (∀ k, k ≤ m → e.LoadsInRangeAt s.shared k) ∧
        s1.shared = e.collaboratorsAt s.shared (m + 1) ∧
        s1.numerairesHeld_.length = s.numerairesHeld_.length := by
  induction fuel with
  | zero => intro s s1 h; simp [AccountingEngine.pathLoop] at h
  | succ fuel ih =>
    intro s s1 h
    simp only [AccountingEngine.pathLoop] at h
    cases hit : e.iteration s with
    | error f => simp [hit] at h
    | ok r =>
      obtain ⟨d, s2⟩ := r
      simp only [hit] at h
      obtain ⟨hd, hin, hsh, _, _, hlen, _⟩ := iteration_returns e s s2 d hit
      by_cases hdone : d = true
      · simp only [hdone, if_true, Except.ok.injEq] at h
        subst h
        refine ⟨0, Nat.succ_pos _, fun k hk => absurd hk (Nat.not_lt_zero k), ?_, ?_, hsh,
          hlen⟩
        · rw [← hd]; exact hdone
        · intro k hk
          have : k = 0 := by omega
          subst this
          exact hin
      · have hd0 : d = false := by simpa using hdone
        simp only [hd0, Bool.false_eq_true, if_false] at h
        obtain ⟨m, hm, hnot, hlast, hrange, hshared, hlen1⟩ := ih s2 s1 h
        rw [hsh] at hnot hlast hrange hshared
        refine ⟨m + 1, by omega, ?_, hlast, ?_, hshared, hlen1.trans hlen⟩
        · intro k hk
          cases k with
          | zero => rw [← hd]; exact hd0
          | succ k => exact hnot k (by omega)
        · intro k hk
          cases k with
          | zero => exact hin
          | succ k => exact hrange k (by omega)

theorem pathLoop_never_done {σ π : Type} (e : AccountingEngine σ π) (fuel : Nat) :
    ∀ (c : Collaborators σ π) (w p : ℚ) (held : List ℚ),
      held.length = e.numberProducts_ →
      (∀ k, k < fuel → e.doneAt c k = false ∧ e.InRangeAt c k) →
      e.pathLoop fuel ⟨c, w, p, held⟩ = Except.error Fault.fuelExhausted := by
  induction fuel with
  | zero => intro c w p held _ _; rfl
  | succ fuel ih =>
    intro c w p held hlen h
    obtain ⟨held1, hit, hlen1, _⟩ := iteration_spec e c w p held hlen (h 0 (Nat.succ_pos _)).2
    simp only [AccountingEngine.pathLoop, hit, (h 0 (Nat.succ_pos _)).1]
    exact ih _ _ _ held1 hlen1 (fun k hk => h (k + 1) (by omega))

/-! ## A product that never completes -/

theorem endless_collaboratorsAt (k : Nat) :
    ∀ c : Collaborators ℕ ℕ, endlessEngine.collaboratorsAt c (k + 1)
      = ⟨c.evolverObject, c.productObject, [0], [[⟨0, 0⟩]]⟩ := by
  induction k with
  | zero => intro c; rfl
  | succ k ih => intro c; exact ih _

theorem endless_running (c : Collaborators ℕ ℕ) (k : Nat) :
    endlessEngine.doneAt c k = false ∧ endlessEngine.InRangeAt c k := by
  refine ⟨rfl, ?_⟩
  simp only [AccountingEngine.InRangeAt, AccountingEngine.stepAt, AccountingEngine.countsAt,
    AccountingEngine.flowsAt, AccountingEngine.countAt, AccountingEngine.flowAt,
    endless_collaboratorsAt]
  have h02 : (0 : ℕ) < 2 := by decide
  have h12 : (0 : ℕ) + 1 < 2 := by decide
  have h01 : (0 : ℕ) < 1 := by decide
  refine ⟨h02, fun _ => h12, ?_⟩
  intro i hi
  have hi0 : i = 0 := by
    have : i < 1 := hi
    omega
  subst hi0
  exact ⟨h01, h01, fun j hj => absurd hj (Nat.not_lt_zero j)⟩

/-- C11, as the code has it: when the product never signals completion and every index stays
in range, the loop is still running after any number `fuel` of iterations; `singlePathValues`
has no iteration cap, returns nothing and reports nothing. -/
theorem singlePathValues_no_iteration_cap {σ π : Type} (e : AccountingEngine σ π)
    (values : List ℚ) (fuel : ℕ) (hheld : e.numerairesHeld_.length = e.numberProducts_)
    (hnever : ∀ k, e.doneAt e.entryShared k = false)
    (hin : ∀ k, e.InRangeAt e.entryShared k) :
    e.singlePathValues fuel values = Except.error Fault.fuelExhausted := by
  have hloop := pathLoop_never_done e fuel e.entryShared
    (e.evolver_.startNewPath e.evolverObject).1 1 (List.replicate e.numerairesHeld_.length 0)
    (by simpa using hheld) (fun k _ => ⟨hnever k, hin k⟩)
  have hentry : e.entryState = ⟨e.entryShared, (e.evolver_.startNewPath e.evolverObject).1, 1,
      List.replicate e.numerairesHeld_.length 0⟩ := rfl
  simp only [AccountingEngine.singlePathValues, hentry, hloop]

/-- Witness of the missing iteration cap on `endlessEngine`: after 1000 iterations the loop is
still running. -/
theorem singlePathValues_no_iteration_cap_witness :
    endlessEngine.singlePathValues 1000 [0] = Except.error Fault.fuelExhausted :=
  singlePathValues_no_iteration_cap endlessEngine [0] 1000 (by decide)
    (fun k => (endless_running _ k).1) (fun k => (endless_running _ k).2)

/-- C11, as the specification has it, fails: on `endlessEngine`, whose product never signals
completion, no number of iterations makes `singlePathValues` stop; after every bound the loop
is still running. -/
theorem endless_path_never_stops :
    ¬ ∃ fuel, endlessEngine.singlePathValues fuel [0] ≠ Except.error Fault.fuelExhausted := by
  rintro ⟨fuel, h⟩
  apply h
  have hloop := pathLoop_never_done endlessEngine fuel endlessEngine.entryShared
    (endlessEngine.evolver_.startNewPath endlessEngine.evolverObject).1 1
    (List.replicate endlessEngine.numerairesHeld_.length 0) (by decide)
    (fun k _ => endless_running _ k)
  have hentry : endlessEngine.entryState = ⟨endlessEngine.entryShared,
      (endlessEngine.evolver_.startNewPath endlessEngine.evolverObject).1, 1,
      List.replicate endlessEngine.numerairesHeld_.length 0⟩ := rfl
  simp only [AccountingEngine.singlePathValues, hentry, hloop]

/-! ## Indices out of range -/

/-- C12, as the code has it: when a generated flow (below its product's count) of some step
carries a time index that is not a position of `discounters_`, the engine checks nothing and
reports no error.  The path completes, the run returns and writes for every product the
holdings of the path times `initialNumeraireValue_`, the stray flow booked like any other. -/
theorem discounter_lookup_unchecked {σ π : Type} (e : AccountingEngine σ π) (values : List ℚ)
    (fuel n k i j : ℕ) (hheld : e.numerairesHeld_.length = e.numberProducts_)
    (hvalues : e.numberProducts_ ≤ values.length)
    (hdone : e.CompletesAt e.entryShared n)
    (hin : ∀ l, l < n → e.LoadsInRangeAt e.entryShared l) (hfuel : n ≤ fuel) :
    k < n → i < e.numberProducts_ → j < e.countAt e.entryShared k i →
    e.discounters_.length ≤ (e.flowAt e.entryShared k i j).timeIndex →
    ∃ e1 values1, e.singlePathValues fuel values = Except.ok (e1, values1) ∧
      values1.length = values.length ∧
      ∀ m, m < e.numberProducts_ →
        values1.getD m 0 = e.heldAfter e.entryShared n m * e.initialNumeraireValue_ := by
  intro _ _ _ _
  obtain ⟨held1, values1, hrun, _, hlen, _, hval, _⟩ :=
    singlePathValues_loads e values n fuel hheld hvalues hdone hin hfuel
  exact ⟨_, values1, hrun, hlen, hval⟩

/-- Witness of the unchecked discounter lookup on `strayIndexEngine`, whose only flow has time
index 5 with one discounter: the run returns. -/
theorem discounter_lookup_unchecked_witness :
    ∃ e1 values1, strayIndexEngine.singlePathValues 1 [0] = Except.ok (e1, values1) ∧
      values1.length = [(0 : ℚ)].length ∧
      ∀ m, m < strayIndexEngine.numberProducts_ →
        values1.getD m 0 = strayIndexEngine.heldAfter strayIndexEngine.entryShared 1 m
          * strayIndexEngine.initialNumeraireValue_ :=
  discounter_lookup_unchecked strayIndexEngine [0] 1 1 0 0 0 (by decide) (by decide)
    ⟨by decide, fun k hk => by omega, by decide⟩
    (fun l hl => by interval_cases l; decide) (by decide) (by decide) (by decide) (by decide)
    (by decide)

/-- C12, as the specification has it, fails: on `strayIndexEngine` the only flow has the time
index 5 while `discounters_` has one entry, and the run returns the value 70. -/
theorem stray_time_index_returns_values :
    strayIndexEngine.discounters_.length = 1 ∧
    (strayIndexEngine.flowAt strayIndexEngine.entryShared 0 0 0).timeIndex = 5 ∧
    valuesOf (strayIndexEngine.singlePathValues 1 [0]) = some [70] := by
  refine ⟨rfl, by decide, ?_⟩
  simp [valuesOf, AccountingEngine.singlePathValues, AccountingEngine.pathLoop,
    AccountingEngine.iteration, AccountingEngine.entryState, AccountingEngine.entryShared,
    AccountingEngine.callCollaborators, strayIndexEngine, newAccountingEngine, replayEvolver,
    replayProduct, overwriteFront, readAt, addProducts, addCashFlows, writeValues,
    Discounter.numeraireBonds]
  norm_num

theorem singlePathValues_returns {σ π : Type} (e : AccountingEngine σ π) (values : List ℚ)
    (fuel : ℕ) (e1 : AccountingEngine σ π) (values1 : List ℚ)
    (h : e.singlePathValues fuel values = Except.ok (e1, values1)) :
    ∃ n, e.CompletesAt e.entryShared n ∧ n ≤ fuel ∧
      (∀ k, k < n → e.LoadsInRangeAt e.entryShared k) ∧
      e1 = e.afterPath n e1.numerairesHeld_ ∧
      e1.numerairesHeld_.length = e.numerairesHeld_.length := by
  simp only [AccountingEngine.singlePathValues] at h
  cases hloop : e.pathLoop fuel e.entryState with
  | error f => simp [hloop] at h
  | ok s =>
    simp only [hloop] at h
    cases hw : writeValues s.numerairesHeld_ e.initialNumeraireValue_ s.numerairesHeld_.length
        values with
    | error f => simp [hw] at h
    | ok v =>
      simp only [hw, Except.ok.injEq, Prod.mk.injEq] at h
      obtain ⟨he1, _⟩ := h
      obtain ⟨m, hm, hnot, hlast, hrange, hshared, hlen⟩ :=
        pathLoop_returns e fuel e.entryState s hloop
      have hsh : s.shared = e.collaboratorsAt e.entryShared (m + 1) := hshared
      refine ⟨m + 1, ⟨Nat.succ_pos m, fun k hk => hnot k (by omega), hlast⟩, hm,
        fun k hk => hrange k (by omega), ?_, ?_⟩
      · rw [← he1]
        simp only [AccountingEngine.afterPath, hsh]
      · rw [← he1]
        simpa [AccountingEngine.entryState] using hlen

theorem constructor_sized {σ π : Type} (newCurveState : List ℚ → CurveState)
    (evolver : MarketModelEvolver σ) (evolverObject : σ) (product : MarketModelProduct π)
    (productObject : π) (evolution : EvolutionDescription) (initialNumeraireValue : ℚ) :
    (newAccountingEngine newCurveState evolver evolverObject product productObject evolution
      initialNumeraireValue).Sized := by
  refine ⟨rfl, ?_, ?_, ?_, ?_, rfl⟩
  · simp [newAccountingEngine]
  · simp [newAccountingEngine]
  · simp [newAccountingEngine]
  · intro row hrow
    simp only [newAccountingEngine] at hrow
    rw [List.eq_of_mem_replicate hrow, List.length_replicate]
    rfl

theorem buffers_sized_along {σ π : Type} (e : AccountingEngine σ π)
    (hkeep : e.product_.KeepsSizes) (k : Nat) :
    ∀ c : Collaborators σ π,
      c.numberCashFlowsThisStep_.length = e.product_.numberOfProducts →
      c.cashFlowsGenerated_.length = e.product_.numberOfProducts →
      (∀ row, row ∈ c.cashFlowsGenerated_ →
        row.length = e.product_.maxNumberOfCashFlowsPerProductPerStep) →
      (e.collaboratorsAt c k).numberCashFlowsThisStep_.length = e.product_.numberOfProducts ∧
      (e.collaboratorsAt c k).cashFlowsGenerated_.length = e.product_.numberOfProducts ∧
      ∀ row, row ∈ (e.collaboratorsAt c k).cashFlowsGenerated_ →
        row.length = e.product_.maxNumberOfCashFlowsPerProductPerStep := by
  induction k with
  | zero => intro c h1 h2 h3; exact ⟨h1, h2, h3⟩
  | succ k ih =>
    intro c h1 h2 h3
    obtain ⟨g1, g2, g3⟩ := hkeep c.productObject
      (e.evolver_.currentState (e.evolver_.advanceStep c.evolverObject).2)
      c.numberCashFlowsThisStep_ c.cashFlowsGenerated_ h1 h2 h3
    exact ih (e.callCollaborators c).2 g1 g2 g3

/-- C14, as the code has it: the constructor gives `numerairesHeld_`,
`numberCashFlowsThisStep_` and `cashFlowsGenerated_` one entry per product, every flow buffer
`maxNumberOfCashFlowsPerProductPerStep` entries and `discounters_` one discounter per possible
cash-flow time in the order of the times.  A call of `singlePathValues` that returns keeps the
size of `numerairesHeld_`, the list `discounters_` and `numberProducts_`; the two scratch
buffers come back as the product's `nextTimeStep` left them, so all the sizes are kept when
the product writes into the buffers without resizing them. -/
theorem sizes_established_and_kept {σ π : Type} (newCurveState : List ℚ → CurveState)
    (evolver : MarketModelEvolver σ) (evolverObject : σ) (product : MarketModelProduct π)
    (productObject : π) (evolution : EvolutionDescription) (initialNumeraireValue : ℚ)
    (e e1 : AccountingEngine σ π) (values values1 : List ℚ) (fuel : ℕ)
    (hrun : e.singlePathValues fuel values = Except.ok (e1, values1)) :
    (newAccountingEngine newCurveState evolver evolverObject product productObject evolution
      initialNumeraireValue).Sized ∧
    e1.numerairesHeld_.length = e.numerairesHeld_.length ∧
    e1.discounters_ = e.discounters_ ∧ e1.numberProducts_ = e.numberProducts_ ∧
    (∃ n, e.CompletesAt e.entryShared n ∧
      e1.numberCashFlowsThisStep_
        = (e.collaboratorsAt e.entryShared n).numberCashFlowsThisStep_ ∧
      e1.cashFlowsGenerated_ = (e.collaboratorsAt e.entryShared n).cashFlowsGenerated_) ∧
    (e.Sized → e.product_.KeepsSizes → e1.Sized) := by
  obtain ⟨n, hdone, _, _, he1, hlen⟩ := singlePathValues_returns e values fuel e1 values1 hrun
  refine ⟨constructor_sized _ _ _ _ _ _ _, hlen, ?_, ?_, ⟨n, hdone, ?_, ?_⟩, ?_⟩
  · rw [he1]; rfl
  · rw [he1]; rfl
  · rw [he1]; rfl
  · rw [he1]; rfl
  · intro hsized hkeep
    obtain ⟨h0, h1, h2, h3, h4, h5⟩ := hsized
    obtain ⟨g1, g2, g3⟩ := buffers_sized_along e hkeep n e.entryShared h2 h3 h4
    rw [he1]
    exact ⟨h0, hlen.trans h1, g1, g2, g3, h5⟩

theorem steadyProduct_keepsSizes : steadyProduct.KeepsSizes := by
  intro p curveState counts flows _ _ _
  refine ⟨rfl, rfl, ?_⟩
  intro row hrow
  simp only [steadyProduct, List.mem_cons, List.mem_singleton, List.not_mem_nil, or_false]
    at hrow
  rcases hrow with h | h <;> rw [h] <;> rfl

/-- Witness of C14 on `steadyEngine`, whose product writes both buffers in full: the
constructed engine has the sizes, its two-step run returns and the engine it leaves has them
too. -/
theorem sizes_established_and_kept_witness :
    steadyEngine.Sized ∧
    ∃ e1 values1, steadyEngine.singlePathValues 2 [0, 0] = Except.ok (e1, values1) ∧
      e1.numerairesHeld_.length = 2 ∧ e1.Sized := by
  obtain ⟨held1, values1, hrun, _⟩ := singlePathValues_spec steadyEngine [0, 0] 2 2 (by decide)
    (by decide) ⟨by decide, fun k hk => by have : k < 1 := by omega
                                           interval_cases k; decide, by decide⟩
    (fun k hk => by interval_cases k <;> decide) (by decide)
  have h := sizes_established_and_kept (fun _ => curveOf [1, 1 / 2])
    (replayEvolver [curveOf [1, 1 / 2], curveOf [1, 1 / 2]]) 0 steadyProduct 0
    { rateTimes := [1, 2], numeraires := [0, 1] } 10 steadyEngine _ [0, 0] values1 2 hrun
  exact ⟨h.1, _, values1, hrun, h.2.1,
    h.2.2.2.2.2 (constructor_sized _ _ _ _ _ _ _) steadyProduct_keepsSizes⟩

/-- C14, as the specification has it, fails: `growingEngine` is built for one product, its
run returns, and the engine it leaves has two entries in `numberCashFlowsThisStep_` and in
`cashFlowsGenerated_`, as the product's `nextTimeStep` handed them back. -/
theorem resized_buffers_are_kept :
    growingEngine.Sized ∧ growingEngine.product_.numberOfProducts = 1 ∧
    ∃ e1 values1, growingEngine.singlePathValues 1 [0] = Except.ok (e1, values1) ∧
      e1.numberCashFlowsThisStep_.length = 2 ∧ e1.cashFlowsGenerated_.length = 2 ∧
      ¬ e1.Sized := by
  obtain ⟨held1, values1, hrun, _⟩ := singlePathValues_spec growingEngine [0] 1 1 (by decide)
    (by decide) ⟨by decide, fun k hk => by omega, by decide⟩
    (fun k hk => by interval_cases k; decide) (by decide)
  refine ⟨constructor_sized _ _ _ _ _ _ _, rfl, _, values1, hrun, rfl, rfl, ?_⟩
  intro hsized
  have h : (growingEngine.afterPath 1 held1).numberCashFlowsThisStep_.length
      = (growingEngine.afterPath 1 held1).product_.numberOfProducts := hsized.2.2.1
  have h2 : (growingEngine.afterPath 1 held1).numberCashFlowsThisStep_.length = 2 := rfl
  have h1 : (growingEngine.afterPath 1 held1).product_.numberOfProducts = 1 := rfl
  omega

/-! ## The path weight -/

theorem same_product_side {σ π : Type} (e e2 : AccountingEngine σ π)
    (hprod : e.product_ = e2.product_) (k : Nat) :
    ∀ (c c2 : Collaborators σ π), c.productObject = c2.productObject →
      c.numberCashFlowsThisStep_ = c2.numberCashFlowsThisStep_ →
      c.cashFlowsGenerated_ = c2.cashFlowsGenerated_ →
      (∀ l, l ≤ k → e.stateAt c l = e2.stateAt c2 l) →
      e.doneAt c k = e2.doneAt c2 k ∧ e.countsAt c k = e2.countsAt c2 k ∧
      e.flowsAt c k = e2.flowsAt c2 k := by
  induction k with
  | zero =>
    intro c c2 hp hc hf hstate
    have hs := hstate 0 (le_refl 0)
    simp only [AccountingEngine.stateAt, AccountingEngine.collaboratorsAt,
      AccountingEngine.callCollaborators] at hs
    simp only [AccountingEngine.doneAt, AccountingEngine.countsAt, AccountingEngine.flowsAt,
      AccountingEngine.collaboratorsAt, AccountingEngine.callCollaborators, hprod, hs, hp, hc,
      hf, and_self]
  | succ k ih =>
    intro c c2 hp hc hf hstate
    have hs := hstate 0 (Nat.zero_le _)
    simp only [AccountingEngine.stateAt, AccountingEngine.collaboratorsAt,
      AccountingEngine.callCollaborators] at hs
    exact ih (e.callCollaborators c).2 (e2.callCollaborators c2).2
      (by simp only [AccountingEngine.callCollaborators, hprod, hs, hp, hc, hf])
      (by simp only [AccountingEngine.callCollaborators, hprod, hs, hp, hc, hf])
      (by simp only [AccountingEngine.callCollaborators, hprod, hs, hp, hc, hf])
      (fun l hl => hstate (l + 1) (Nat.succ_le_succ hl))

/-- C15: an engine and the same engine over another evolver whose path shows the same curve
states and step indices return and write identical value vectors, whatever weights the two
evolvers return from `startNewPath` and `advanceStep`. -/
theorem values_ignore_weights {σ π : Type} (e : AccountingEngine σ π)
    (evolver2 : MarketModelEvolver σ) (object2 : σ) (values : List ℚ) (n fuel : ℕ)
    (hheld : e.numerairesHeld_.length = e.numberProducts_)
    (hvalues : values.length = e.numberProducts_)
    (hdone : e.CompletesAt e.entryShared n)
    (hin : ∀ k, k < n → e.InRangeAt e.entryShared k)
    (hsame : ∀ k, k < n →
      e.stateAt e.entryShared k
        = (e.withEvolver evolver2 object2).stateAt (e.withEvolver evolver2 object2).entryShared k
      ∧ e.stepAt e.entryShared k
        = (e.withEvolver evolver2 object2).stepAt (e.withEvolver evolver2 object2).entryShared k)
    (hfuel : n ≤ fuel) :
    ∃ e1 e2 values1, e.singlePathValues fuel values = Except.ok (e1, values1) ∧
      (e.withEvolver evolver2 object2).singlePathValues fuel values
        = Except.ok (e2, values1) := by
  have hside : ∀ k, k < n →
      e.doneAt e.entryShared k = (e.withEvolver evolver2 object2).doneAt
        (e.withEvolver evolver2 object2).entryShared k ∧
      e.countsAt e.entryShared k = (e.withEvolver evolver2 object2).countsAt
        (e.withEvolver evolver2 object2).entryShared k ∧
      e.flowsAt e.entryShared k = (e.withEvolver evolver2 object2).flowsAt
        (e.withEvolver evolver2 object2).entryShared k :=
    fun k hk => same_product_side e (e.withEvolver evolver2 object2) rfl k _ _ rfl rfl rfl
      (fun l hl => (hsame l (by omega)).1)
  have hpath : e.SamePath (e.withEvolver evolver2 object2) e.entryShared
      (e.withEvolver evolver2 object2).entryShared n := by
    intro k hk
    obtain ⟨h1, h2, h3⟩ := hside k hk
    refine ⟨h1, (hsame k hk).1, (hsame k hk).2, fun i _ => ?_⟩
    simp only [AccountingEngine.countAt, AccountingEngine.flowAt, h2, h3, implies_true,
      and_self]
  have hin2 : ∀ k, k < n → (e.withEvolver evolver2 object2).InRangeAt
      (e.withEvolver evolver2 object2).entryShared k := by
    intro k hk
    obtain ⟨h1, h2, h3⟩ := hside k hk
    have hk1 := hin k hk
    simp only [AccountingEngine.InRangeAt, AccountingEngine.countAt, AccountingEngine.flowAt,
      h1, h2, h3, (hsame k hk).2] at hk1
    exact hk1
  obtain ⟨held, held2, values1, hrun, hrun2⟩ :=
    singlePathValues_same_path e (e.withEvolver evolver2 object2) values values n fuel
      ⟨rfl, rfl, rfl, rfl, rfl⟩ hheld hheld hvalues hvalues hdone hin hpath hin2 hfuel
  exact ⟨_, _, values1, hrun, hrun2⟩

/-- Witness of C15 on `threeStepEngine`: with the weights 3 and 5 in place of 1 and 1 the values
are the same. -/
theorem values_ignore_weights_witness :
    ∃ e1 e2 values1, threeStepEngine.singlePathValues 3 [0, 0, 0] = Except.ok (e1, values1) ∧
      (threeStepEngine.withEvolver (weightedEvolver 3 5 threeStepEngine.evolver_)
        0).singlePathValues 3 [0, 0, 0] = Except.ok (e2, values1) :=
  values_ignore_weights threeStepEngine (weightedEvolver 3 5 threeStepEngine.evolver_) 0
    [0, 0, 0] 3 3 (by decide) (by decide)
    ⟨by decide, fun k hk => by have : k < 2 := by omega
                               interval_cases k <;> decide, by decide⟩
    (fun k hk => by interval_cases k <;> decide)
    (fun k hk => by interval_cases k <;> exact ⟨rfl, by decide⟩)
    (by decide)

/-! ## Calls of the collaborators -/

theorem counting_collaboratorsAt {σ π : Type} (e : AccountingEngine σ π) (k : Nat) :
    ∀ (c : Collaborators σ π) (a b : ℕ),
      e.counting.collaboratorsAt (c.counted a b) k
        = (e.collaboratorsAt c k).counted (a + k) (b + k) := by
  induction k with
  | zero => intro c a b; rfl
  | succ k ih =>
    intro c a b
    have h := ih (e.callCollaborators c).2 (a + 1) (b + 1)
    have ha : a + 1 + k = a + (k + 1) := by omega
    have hb : b + 1 + k = b + (k + 1) := by omega
    rw [ha, hb] at h
    exact h

theorem counting_doneAt {σ π : Type} (e : AccountingEngine σ π) (c : Collaborators σ π)
    (a b k : ℕ) : e.counting.doneAt (c.counted a b) k = e.doneAt c k := by
  simp only [AccountingEngine.doneAt, counting_collaboratorsAt]
  rfl

theorem counting_inRangeAt {σ π : Type} (e : AccountingEngine σ π) (c : Collaborators σ π)
    (a b k : ℕ) (h : e.InRangeAt c k) : e.counting.InRangeAt (c.counted a b) k := by
  have hd := counting_doneAt e c a b k
  simp only [AccountingEngine.InRangeAt, AccountingEngine.stepAt, AccountingEngine.countsAt,
    AccountingEngine.flowsAt, AccountingEngine.countAt, AccountingEngine.flowAt, hd,
    counting_collaboratorsAt] at h ⊢
  exact h

theorem completesAt_unique {σ π : Type} (e : AccountingEngine σ π) (c : Collaborators σ π)
    (n m : ℕ) (hn : e.CompletesAt c n) (hm : e.CompletesAt c m) : m = n := by
  obtain ⟨hn1, hn2, hn3⟩ := hn
  obtain ⟨hm1, hm2, hm3⟩ := hm
  by_contra hne
  rcases Nat.lt_or_gt_of_ne hne with h | h
  · have := hn2 (m - 1) (by omega)
    rw [this] at hm3
    cases hm3
  · have := hm2 (n - 1) (by omega)
    rw [this] at hn3
    cases hn3

/-- C16: with call counters attached to the collaborators, on a path whose product first
signals completion on its `n`-th call (`n >= 1`) every call of `singlePathValues` with enough
fuel returns, and every call that returns has advanced the evolver exactly `n` times and called
`nextTimeStep` exactly `n` times: at least one step is executed and none after the signal. -/
theorem loop_runs_until_completion {σ π : Type} (e : AccountingEngine σ π) (values : List ℚ)
    (n fuel : ℕ) (hheld : e.numerairesHeld_.length = e.numberProducts_)
    (hvalues : e.numberProducts_ ≤ values.length)
    (hdone : e.CompletesAt e.entryShared n)
    (hin : ∀ k, k < n → e.InRangeAt e.entryShared k) (hfuel : n ≤ fuel) :
    (∃ e1 values1, e.counting.singlePathValues fuel values = Except.ok (e1, values1) ∧
      e1.evolverObject.2 = n ∧ e1.productObject.2 = n) ∧
    1 ≤ n ∧
    ∀ (fuel0 : ℕ) (values0 : List ℚ) (e2 : AccountingEngine (σ × ℕ) (π × ℕ))
      (values2 : List ℚ),
      e.counting.singlePathValues fuel0 values0 = Except.ok (e2, values2) →
      e2.evolverObject.2 = n ∧ e2.productObject.2 = n := by
  have hentry : e.counting.entryShared = e.entryShared.counted 0 0 := rfl
  have hdone1 : e.counting.CompletesAt e.counting.entryShared n := by
    obtain ⟨h1, h2, h3⟩ := hdone
    rw [hentry]
    exact ⟨h1, fun k hk => by rw [counting_doneAt]; exact h2 k hk, by
      rw [counting_doneAt]; exact h3⟩
  have hin1 : ∀ k, k < n → e.counting.InRangeAt e.counting.entryShared k := by
    intro k hk
    rw [hentry]
    exact counting_inRangeAt e _ 0 0 k (hin k hk)
  have hcount : ∀ held : List ℚ, ((e.counting.afterPath n held).evolverObject).2 = n ∧
      ((e.counting.afterPath n held).productObject).2 = n := by
    intro held
    have hat := counting_collaboratorsAt e n e.entryShared 0 0
    rw [← hentry] at hat
    simp only [AccountingEngine.afterPath, hat, Collaborators.counted, zero_add, and_self]
  refine ⟨?_, hdone.1, ?_⟩
  · obtain ⟨held1, values1, hrun, _⟩ :=
      singlePathValues_spec e.counting values n fuel hheld hvalues hdone1 hin1 hfuel
    exact ⟨_, values1, hrun, hcount held1⟩
  · intro fuel0 values0 e2 values2 hrun
    obtain ⟨m, hm, _, _, he2, _⟩ :=
      singlePathValues_returns e.counting values0 fuel0 e2 values2 hrun
    have hmn := completesAt_unique e.counting _ n m hdone1 hm
    rw [he2, hmn]
    exact hcount _

/-- Witness of C16 on `threeStepEngine`: the run advances the evolver three times and calls
`nextTimeStep` three times. -/
theorem loop_runs_until_completion_witness :
    ∃ e1 values1, threeStepEngine.counting.singlePathValues 3 [0, 0, 0]
        = Except.ok (e1, values1) ∧
      e1.evolverObject.2 = 3 ∧ e1.productObject.2 = 3 :=
  (loop_runs_until_completion threeStepEngine [0, 0, 0] 3 3 (by decide) (by decide)
    ⟨by decide, fun k hk => by have : k < 2 := by omega
                               interval_cases k <;> decide, by decide⟩
    (fun k hk => by interval_cases k <;> decide) (by decide)).1

/-! ## The lookahead of the last step -/

/-- C17: an iteration in which the product signals completion leaves the principal as it was
and does not read `numeraires()[currentStep + 1]`.  On a path of `n` steps with `currentStep`
equal to `0, 1, .., n - 1` and the buffers in range, a numeraire sequence of at least `n`
entries is enough for the run to return, with a principal rebased `n - 1` times; with exactly
`n` entries the index `currentStep + 1` of the last step is outside the sequence, and with
`n + 1` entries `currentStep + 1` is inside it at every step. -/
theorem final_step_lookahead_guarded {σ π : Type} (e : AccountingEngine σ π) (values : List ℚ)
    (n fuel : ℕ) (hheld : e.numerairesHeld_.length = e.numberProducts_)
    (hvalues : e.numberProducts_ ≤ values.length)
    (hdone : e.CompletesAt e.entryShared n)
    (hsteps : ∀ k, k < n → e.stepAt e.entryShared k = k)
    (hbuf : ∀ k, k < n → e.BuffersInRangeAt e.entryShared k)
    (hlen : n ≤ e.evolution_.numeraires.length) (hfuel : n ≤ fuel) :
    (∀ s s1, e.iteration s = Except.ok (true, s1) →
      s1.principalInNumerairePortfolio = s.principalInNumerairePortfolio) ∧
    (∃ s, e.pathLoop fuel e.entryState = Except.ok s ∧
      s.principalInNumerairePortfolio = e.principalFrom e.entryShared 1 (n - 1)) ∧
    (∃ e1 values1, e.singlePathValues fuel values = Except.ok (e1, values1)) ∧
    (e.evolution_.numeraires.length = n →
      ¬ (e.stepAt e.entryShared (n - 1) + 1 < e.evolution_.numeraires.length)) ∧
    (e.evolution_.numeraires.length = n + 1 →
      ∀ k, k < n → e.stepAt e.entryShared k + 1 < e.evolution_.numeraires.length) := by
  obtain ⟨hn, hnot, hlast⟩ := hdone
  have hin : ∀ k, k < n → e.InRangeAt e.entryShared k := by
    intro k hk
    refine ⟨by rw [hsteps k hk]; omega, fun hd => ?_, hbuf k hk⟩
    rw [hsteps k hk]
    have hne : k ≠ n - 1 := by
      intro hkn
      rw [hkn, hlast] at hd
      cases hd
    omega
  refine ⟨?_, ?_, ?_, ?_, ?_⟩
  · intro s s1 hit
    obtain ⟨_, _, _, _, hpr, _, _⟩ := iteration_returns e s s1 true hit
    simpa using hpr
  · obtain ⟨m, rfl⟩ : ∃ m, n = m + 1 := ⟨n - 1, by omega⟩
    obtain ⟨s, hrun, _, hpr, _, _⟩ := pathLoop_spec e m e.entryShared
      (e.evolver_.startNewPath e.evolverObject).1 1
      (List.replicate e.numerairesHeld_.length 0) fuel (by simpa using hheld)
      (fun k hk => hnot k (by omega)) (by simpa using hlast) (fun k hk => hin k (by omega))
      (by omega)
    exact ⟨s, hrun, by simpa using hpr⟩
  · obtain ⟨held1, values1, hrun, _⟩ :=
      singlePathValues_spec e values n fuel hheld hvalues ⟨hn, hnot, hlast⟩ hin hfuel
    exact ⟨_, values1, hrun⟩
  · intro hexact
    rw [hsteps (n - 1) (by omega)]
    omega
  · intro hextra k hk
    rw [hsteps k hk]
    omega

/-- Witness of C17 on `scenarioEngine`, whose numeraire sequence `[0, 0, 1]` has no trailing
entry: the run of three steps returns and index 3 is outside the sequence. -/
theorem final_step_lookahead_guarded_witness :
    (∃ e1 values1, scenarioEngine.singlePathValues 3 [0] = Except.ok (e1, values1)) ∧
    ¬ (scenarioEngine.stepAt scenarioEngine.entryShared (3 - 1) + 1
      < scenarioEngine.evolution_.numeraires.length) :=
  ⟨(final_step_lookahead_guarded scenarioEngine [0] 3 3 (by decide) (by decide)
      ⟨by decide, fun k hk => by have : k < 2 := by omega
                                 interval_cases k <;> decide, by decide⟩
      (fun k hk => by interval_cases k <;> decide)
      (fun k hk => by interval_cases k <;> decide) (by decide) (by decide)).2.2.1,
    (final_step_lookahead_guarded scenarioEngine [0] 3 3 (by decide) (by decide)
      ⟨by decide, fun k hk => by have : k < 2 := by omega
                                 interval_cases k <;> decide, by decide⟩
      (fun k hk => by interval_cases k <;> decide)
      (fun k hk => by interval_cases k <;> decide) (by decide) (by decide)).2.2.2.1 rfl⟩

/-! ## The frame of one step -/

/-- C18: one iteration with every index in range returns; the holdings it leaves are those the
two flow loops left, so the rebase changes the principal only; `numerairesHeld_[i]` has grown
by the sum of `bonds / principal` over the flows of product `i` in this step, and is unchanged
for a product whose flow count is zero. -/
theorem iteration_frame {σ π : Type} (e : AccountingEngine σ π) (c : Collaborators σ π)
    (w p : ℚ) (held : List ℚ) (hlen : held.length = e.numberProducts_)
    (hin : e.InRangeAt c 0) :
    ∃ held1, e.iteration ⟨c, w, p, held⟩
        = Except.ok (e.doneAt c 0,
            ⟨(e.callCollaborators c).2, w * (e.evolver_.advanceStep c.evolverObject).1,
              if e.doneAt c 0 = true then p else p * e.rebaseAt c 0, held1⟩) ∧
      addProducts e.discounters_ (e.stateAt c 0) (e.numeraireAt c 0) p (e.countsAt c 0)
        (e.flowsAt c 0) e.numberProducts_ held = Except.ok held1 ∧
      held1.length = held.length ∧
      (∀ i, i < e.numberProducts_ → held1.getD i 0 = held.getD i 0
        + ∑ j ∈ Finset.range (e.countAt c 0 i), e.bondsAt c 0 i j / p) ∧
      (∀ i, i < e.numberProducts_ → e.countAt c 0 i = 0 →
        held1.getD i 0 = held.getD i 0) := by
  obtain ⟨held1, hit, hlen1, hval⟩ := iteration_spec e c w p held hlen hin
  obtain ⟨_, _, _, _, _, _, hadd⟩ := iteration_returns e _ _ _ hit
  refine ⟨held1, hit, hadd, hlen1.trans hlen.symm, hval, ?_⟩
  intro i hi hzero
  rw [hval i hi, hzero]
  simp

/-- Witness of C18 on the first step of `threeStepEngine`, entered with the holdings
`[5, 6, 7]`: product 1 receives 8 and 4, the others nothing. -/
theorem iteration_frame_witness :
    ∃ d s1, threeStepEngine.iteration ⟨threeStepEngine.entryShared, 1, 1, [5, 6, 7]⟩
        = Except.ok (d, s1) ∧
      s1.numerairesHeld_.getD 0 0 = 5 ∧ s1.numerairesHeld_.getD 1 0 = 18 ∧
      s1.numerairesHeld_.getD 2 0 = 7 := by
  obtain ⟨held1, hit, _, _, hval, hzero⟩ := iteration_frame threeStepEngine
    threeStepEngine.entryShared 1 1 [5, 6, 7] (by decide) (by decide)
  refine ⟨_, _, hit, hzero 0 (by decide) (by decide), ?_, hzero 2 (by decide) (by decide)⟩
  rw [hval 1 (by decide)]
  simp [Finset.sum_range_succ, AccountingEngine.countAt, AccountingEngine.bondsAt,
    AccountingEngine.flowAt, AccountingEngine.countsAt, AccountingEngine.flowsAt,
    AccountingEngine.collaboratorsAt, AccountingEngine.callCollaborators,
    AccountingEngine.entryShared, threeStepEngine, newAccountingEngine, replayEvolver,
    replayProduct, overwriteFront, Discounter.numeraireBonds]
  norm_num

/-! ## A well-formed run -/

theorem getD_mem (flows : List (List CashFlow)) (i : ℕ) (h : i < flows.length) :
    flows.getD i [] ∈ flows := by
  have : flows.getD i [] = flows[i] := by
    simp [List.getD, List.getElem?_eq_getElem h]
  rw [this]
  exact List.getElem_mem h

/-- C20, as the code has it: on an engine with the constructed sizes, with a product that
writes into the buffers without resizing them, counts within
`maxNumberOfCashFlowsPerProductPerStep`, time indices below
the number of possible cash-flow times, `currentStep` a position of `numeraires()` at every
step and `currentStep + 1` one at every step but the last, a product that completes at step
`n` and an output array of at least `numberProducts_` entries, every index of every step is in
range, the run returns, and it writes the entries below `numberProducts_` and leaves the
length and the further entries of the array as they were. -/
theorem well_formed_run_is_safe {σ π : Type} (e : AccountingEngine σ π) (values : List ℚ)
    (n fuel : ℕ) (hsized : e.Sized) (hkeep : e.product_.KeepsSizes)
    (hvalues : e.numberProducts_ ≤ values.length)
    (hdone : e.CompletesAt e.entryShared n)
    (hcount : ∀ k, k < n → ∀ i, i < e.numberProducts_ →
      e.countAt e.entryShared k i ≤ e.product_.maxNumberOfCashFlowsPerProductPerStep)
    (htime : ∀ k, k < n → ∀ i, i < e.numberProducts_ → ∀ j, j < e.countAt e.entryShared k i →
      (e.flowAt e.entryShared k i j).timeIndex < e.product_.possibleCashFlowTimes.length)
    (hstep : ∀ k, k < n → e.stepAt e.entryShared k < e.evolution_.numeraires.length)
    (hnext : ∀ k, k + 1 < n → e.stepAt e.entryShared k + 1 < e.evolution_.numeraires.length)
    (hfuel : n ≤ fuel) :
    (∀ k, k < n → e.InRangeAt e.entryShared k) ∧
    ∃ e1 values1, e.singlePathValues fuel values = Except.ok (e1, values1) ∧
      values1.length = values.length ∧
      (∀ i, i < e.numberProducts_ →
        values1.getD i 0 = e.heldAfter e.entryShared n i * e.initialNumeraireValue_) ∧
      ∀ i, e.numberProducts_ ≤ i → values1.getD i 0 = values.getD i 0 := by
  obtain ⟨h0, h1, h2, h3, h4, h5⟩ := hsized
  have hin : ∀ k, k < n → e.InRangeAt e.entryShared k := by
    intro k hk
    obtain ⟨g1, g2, g3⟩ := buffers_sized_along e hkeep (k + 1) e.entryShared h2 h3 h4
    refine ⟨hstep k hk, fun hd => ?_, fun i hi => ?_⟩
    · have hne : k ≠ n - 1 := by
        intro hkn
        rw [hkn, hdone.2.2] at hd
        cases hd
      exact hnext k (by omega)
    · have hic : i < (e.countsAt e.entryShared k).length := by
        show i < (e.collaboratorsAt e.entryShared (k + 1)).numberCashFlowsThisStep_.length
        omega
      have hif : i < (e.flowsAt e.entryShared k).length := by
        show i < (e.collaboratorsAt e.entryShared (k + 1)).cashFlowsGenerated_.length
        omega
      refine ⟨hic, hif, fun j hj => ⟨?_, ?_⟩⟩
      · have hrow := g3 _ (getD_mem (e.flowsAt e.entryShared k) i hif)
        rw [hrow]
        exact lt_of_lt_of_le hj (hcount k hk i hi)
      · have := htime k hk i hi j hj
        rw [h5, List.length_map]
        exact this
  obtain ⟨held1, values1, hrun, _, hlen, _, hval, hrest⟩ :=
    singlePathValues_spec e values n fuel (h1.trans h0.symm) hvalues hdone hin hfuel
  exact ⟨hin, _, values1, hrun, hlen, hval, hrest⟩

/-- Witness of C20 on the two-step path of `steadyEngine` with an output array of three
entries: the run returns, writes `10 * (7 + 7 / (1/2)) = 210` and `10 * (5 + 5 / (1/2)) = 150`,
keeps the length and leaves the third entry at 9. -/
theorem well_formed_run_is_safe_witness :
    ∃ e1 values1, steadyEngine.singlePathValues 2 [0, 0, 9] = Except.ok (e1, values1) ∧
      values1.length = 3 ∧ values1.getD 0 0 = 210 ∧ values1.getD 1 0 = 150 ∧
      values1.getD 2 0 = 9 := by
  obtain ⟨_, e1, values1, hrun, hlen, hval, hrest⟩ := well_formed_run_is_safe steadyEngine
    [0, 0, 9] 2 2 (constructor_sized _ _ _ _ _ _ _) steadyProduct_keepsSizes (by decide)
    ⟨by decide, fun k hk => by have : k < 1 := by omega
                               interval_cases k; decide, by decide⟩
    (fun k hk => by interval_cases k <;> decide)
    (fun k hk => by interval_cases k <;> decide)
    (fun k hk => by interval_cases k <;> decide)
    (fun k hk => by have : k < 1 := by omega
                    interval_cases k; decide) (by decide)
  refine ⟨e1, values1, hrun, hlen, ?_, ?_, ?_⟩
  · rw [hval 0 (by decide)]
    simp [AccountingEngine.heldAfter, AccountingEngine.principalFrom,
      AccountingEngine.rebaseAt, AccountingEngine.bondsAt, Finset.sum_range_succ,
      Finset.prod_range_succ, AccountingEngine.countAt, AccountingEngine.flowAt,
      AccountingEngine.numeraireAt, AccountingEngine.nextNumeraireAt, AccountingEngine.stepAt,
      AccountingEngine.stateAt, AccountingEngine.countsAt, AccountingEngine.flowsAt,
      AccountingEngine.collaboratorsAt, AccountingEngine.callCollaborators,
      AccountingEngine.entryShared, steadyEngine, steadyProduct, newAccountingEngine,
      replayEvolver, Discounter.numeraireBonds, curveOf]
    norm_num
  · rw [hval 1 (by decide)]
    simp [AccountingEngine.heldAfter, AccountingEngine.principalFrom,
      AccountingEngine.rebaseAt, AccountingEngine.bondsAt, Finset.sum_range_succ,
      Finset.prod_range_succ, AccountingEngine.countAt, AccountingEngine.flowAt,
      AccountingEngine.numeraireAt, AccountingEngine.nextNumeraireAt, AccountingEngine.stepAt,
      AccountingEngine.stateAt, AccountingEngine.countsAt, AccountingEngine.flowsAt,
      AccountingEngine.collaboratorsAt, AccountingEngine.callCollaborators,
      AccountingEngine.entryShared, steadyEngine, steadyProduct, newAccountingEngine,
      replayEvolver, Discounter.numeraireBonds, curveOf]
    norm_num
  · rw [hrest 2 (by decide)]
    rfl

/-- C20, as the specification has it, fails: on `shrinkingEngine` every listed condition
holds (the count 2 is within the maximum 2, every time index is below the one possible
cash-flow time, the step index 0 is a position of `numeraires()`, the product completes at
step 1 and the output array has one entry), yet the flow buffer comes back from `nextTimeStep`
with one entry, so the index 1 below the count is outside it. -/
theorem shrunk_buffer_is_indexed_outside :
    shrinkingEngine.Sized ∧
    shrinkingEngine.CompletesAt shrinkingEngine.entryShared 1 ∧
    (∀ i, i < shrinkingEngine.numberProducts_ →
      shrinkingEngine.countAt shrinkingEngine.entryShared 0 i
        ≤ shrinkingEngine.product_.maxNumberOfCashFlowsPerProductPerStep) ∧
    (∀ i, i < shrinkingEngine.numberProducts_ →
      ∀ j, j < shrinkingEngine.countAt shrinkingEngine.entryShared 0 i →
        (shrinkingEngine.flowAt shrinkingEngine.entryShared 0 i j).timeIndex
          < shrinkingEngine.product_.possibleCashFlowTimes.length) ∧
    shrinkingEngine.stepAt shrinkingEngine.entryShared 0
      < shrinkingEngine.evolution_.numeraires.length ∧
    shrinkingEngine.numberProducts_ ≤ [(0 : ℚ)].length ∧
    shrinkingEngine.countAt shrinkingEngine.entryShared 0 0 = 2 ∧
    ((shrinkingEngine.flowsAt shrinkingEngine.entryShared 0).getD 0 []).length = 1 ∧
    ¬ shrinkingEngine.LoadsInRangeAt shrinkingEngine.entryShared 0 := by
  refine ⟨constructor_sized _ _ _ _ _ _ _, ⟨by decide, fun k hk => by omega, by decide⟩,
    by decide, by decide, by decide, by decide, by decide, by decide, by decide⟩

end QuantLib
